import Mathlib

/-!
Verification of the goini INI parser/store/differ (src/ini.go).

Go strings are modelled as lists of characters (`GoStr`); Go maps
(`map[string]string`, `map[string]Kvmap`) are modelled as association
lists whose update operation replaces an existing binding in place and
otherwise appends, which preserves the key-uniqueness that Go maps
guarantee.  Well-formedness (`WFsecs`) records that uniqueness.
-/

namespace Goini

/-- Go strings modelled as lists of characters. -/
abbrev GoStr := List Char

/-- Kvmap (map[string]string) modelled as an association list. -/
abbrev Kvmap := List (GoStr × GoStr)

/-- SectionMap (map[string]Kvmap) modelled as an association list. -/
abbrev SectionMap := List (GoStr × Kvmap)

/-- Whitespace test modelling unicode.IsSpace as used by bytes.TrimSpace
(the ASCII whitespace characters together with NEL and NBSP; the full
Unicode space category is not modelled, no claim depends on it). -/
def isSpaceChar (c : Char) : Bool :=
  c == ' ' || c == '\t' || c == '\n' || c == Char.ofNat 11 || c == Char.ofNat 12 ||
    c == '\r' || c == Char.ofNat 133 || c == Char.ofNat 160

/-- Model of bytes.TrimSpace: strip whitespace from both ends. -/
def trimSpace (s : GoStr) : GoStr :=
  ((s.dropWhile isSpaceChar).reverse.dropWhile isSpaceChar).reverse

/-- Quote characters trimmed by bytes.Trim(v, quote-set) when trimQuotes is on. -/
def isQuoteChar (c : Char) : Bool := c == '\'' || c == '"'

/-- Model of bytes.Trim(v, quote-set): strip quote characters from both ends. -/
def trimQuoteEnds (s : GoStr) : GoStr :=
  ((s.dropWhile isQuoteChar).reverse.dropWhile isQuoteChar).reverse

/-- Model of bytes.Index: index of the first occurrence of sep in s
(none when absent; Go returns -1 there).  Index of the empty pattern is 0. -/
def indexOfSeq (sep : GoStr) : GoStr → Option Nat
  | [] => if sep.isPrefixOf [] then some 0 else none
  | c :: rest =>
    if sep.isPrefixOf (c :: rest) then some 0
    else (indexOfSeq sep rest).map (· + 1)

/-- Worker for the model of bytes.Split, accumulating the current chunk.
For a nonempty separator it advances past each occurrence (`sep.length - 1`
after the examined head character, which is Go's advance by len(sep)).
The fuel argument only forces structural termination: every step consumes
at least one character, so fuel `s.length` (as supplied by `splitOnSep`)
never runs out. -/
def splitOnSepAux (sep : GoStr) : Nat → GoStr → GoStr → List GoStr
  | _, [], acc => [acc.reverse]
  | 0, s, acc => [acc.reverse ++ s]
  | fuel + 1, c :: rest, acc =>
    if sep.isPrefixOf (c :: rest) then
      acc.reverse :: splitOnSepAux sep fuel (rest.drop (sep.length - 1)) []
    else
      splitOnSepAux sep fuel rest (c :: acc)

/-- Model of bytes.Split: split s at every occurrence of sep; an empty
separator explodes the string into its characters, as in Go. -/
def splitOnSep (sep s : GoStr) : List GoStr :=
  if sep = [] then s.map (fun c => [c]) else splitOnSepAux sep s.length s []

/-- Association-list lookup, modelling Go map indexing. -/
def alookup {α : Type} (k : GoStr) : List (GoStr × α) → Option α
  | [] => none
  | (k', v) :: rest => if k' = k then some v else alookup k rest

/-- Association-list update, modelling Go map assignment: replace the
binding in place when the key is present, otherwise append it. -/
def aset {α : Type} (k : GoStr) (v : α) : List (GoStr × α) → List (GoStr × α)
  | [] => [(k, v)]
  | (k', v') :: rest => if k' = k then (k, v) :: rest else (k', v') :: aset k v rest

/-- Association-list removal, modelling Go's delete builtin. -/
def aremove {α : Type} (k : GoStr) : List (GoStr × α) → List (GoStr × α)
  | [] => []
  | (k', v') :: rest => if k' = k then rest else (k', v') :: aremove k rest

/-- Keys of an association list are pairwise distinct (true of Go maps). -/
abbrev keysNodup {α : Type} (m : List (GoStr × α)) : Prop := (m.map Prod.fst).Nodup

/-- Well-formed section map: distinct section names, distinct keys inside
every section (true of nested Go maps). -/
abbrev WFsecs (m : SectionMap) : Prop := keysNodup m ∧ ∀ p ∈ m, keysNodup p.2

/-- The DefaultSection constant (the empty string). -/
def DefaultSection : GoStr := []

/-- The DefaultLineSeparator constant. -/
def DefaultLineSeparator : GoStr := ['\n']

/-- The DefaultKeyValueSeparator constant. -/
def DefaultKeyValueSeparator : GoStr := ['=']

/-- The INI store: sections plus instance-level configuration. -/
structure INI where
  sections : SectionMap
  lineSep : GoStr
  kvSep : GoStr
  parseSection : Bool
  skipCommits : Bool
  trimQuotes : Bool
deriving DecidableEq

/-- Well-formed store. -/
abbrev WFINI (ini : INI) : Prop := WFsecs ini.sections

/-- New(): fresh store with default separators and all flags off. -/
def New : INI :=
  { sections := []
    lineSep := DefaultLineSeparator
    kvSep := DefaultKeyValueSeparator
    parseSection := false
    skipCommits := false
    trimQuotes := false }

/-- Errors surfaced by the parse entry points: an I/O failure propagated
from reading, or the parser's format error carrying its message text. -/
inductive GoError where
  | ioErr : GoError
  | formatError (msg : GoStr) : GoError
deriving DecidableEq

/-- The format-error message built by parseINI for a line without the
key/value separator; it embeds the offending (trimmed) line text. -/
def errMsg (line : GoStr) : GoStr :=
  "Came accross an error : ".toList ++ line ++ " is NOT a valid key/value pair".toList

/-- The line-processing loop of parseINI.  State: the current section
name and the section map; returns the final state and an error for the
first malformed line, at which point processing stops (as the Go loop
returns).  The comment condition mirrors Go's
`ini.skipCommits && line[0] == ';' || line[0] == '#'`
with Go's operator precedence (&& binds tighter than ||). -/
def parseLines (skipC parseSec trimQ : Bool) (ksep : GoStr) :
    List GoStr → GoStr → SectionMap → GoStr × SectionMap × Option GoError
  | [], cursec, secs => (cursec, secs, none)
  | rawLine :: rest, cursec, secs =>
    match trimSpace rawLine with
    | [] => parseLines skipC parseSec trimQ ksep rest cursec secs
    | c :: cs =>
      if (skipC = true ∧ c = ';') ∨ c = '#' then
        parseLines skipC parseSec trimQ ksep rest cursec secs
      else if parseSec = true ∧ c = '[' ∧ (c :: cs).getLast? = some ']' then
        parseLines skipC parseSec trimQ ksep rest cs.dropLast (aset cs.dropLast [] secs)
      else
        match indexOfSeq ksep (c :: cs) with
        | none => (cursec, secs, some (GoError.formatError (errMsg (c :: cs))))
        | some pos =>
          let k := trimSpace ((c :: cs).take pos)
          let v0 := trimSpace ((c :: cs).drop (pos + ksep.length))
          let v := if trimQ then trimQuoteEnds v0 else v0
          parseLines skipC parseSec trimQ ksep rest cursec
            (aset cursec (aset k v ((alookup cursec secs).getD [])) secs)

/-- parseINI: store the separators, insert a fresh empty default section,
split the data into lines and run the line loop.  Returns the updated
store together with the error of the first malformed line, if any. -/
def parseINI (ini : INI) (data lineSep kvSep : GoStr) : INI × Option GoError :=
  let secs0 := aset [] [] ini.sections
  let lines := splitOnSep lineSep data
  let r := parseLines ini.skipCommits ini.parseSection ini.trimQuotes kvSep lines [] secs0
  ({ ini with lineSep := lineSep, kvSep := kvSep, sections := r.2.1 }, r.2.2)

/-- Parse: public wrapper around parseINI. -/
def INI.Parse (ini : INI) (data lineSep kvSep : GoStr) : INI × Option GoError :=
  parseINI ini data lineSep kvSep

/-- ParseFrom: the reader is modelled as the data it yields, or none when
reading fails (in which case the store is untouched). -/
def INI.ParseFrom (ini : INI) (r : Option GoStr) (lineSep kvSep : GoStr) : INI × Option GoError :=
  match r with
  | some data => parseINI ini data lineSep kvSep
  | none => (ini, some GoError.ioErr)

/-- ParseFile: the file system is modelled as a map from file names to
contents (none = read error, propagated with the store untouched).  On a
successful read the parseSection and skipCommits flags are set before
parsing with the default separators, exactly as in the Go code. -/
def INI.ParseFile (ini : INI) (fs : GoStr → Option GoStr) (filename : GoStr) :
    INI × Option GoError :=
  match fs filename with
  | none => (ini, some GoError.ioErr)
  | some contents =>
    parseINI { ini with parseSection := true, skipCommits := true } contents
      DefaultLineSeparator DefaultKeyValueSeparator

/-- Reset(): drop all sections, keep configuration. -/
def INI.Reset (ini : INI) : INI := { ini with sections := [] }

/-- SectionGet: map-style lookup of a key in a section; ("", false) when
either the section or the key is absent. -/
def INI.SectionGet (ini : INI) (sec key : GoStr) : GoStr × Bool :=
  match alookup sec ini.sections with
  | none => ([], false)
  | some kv =>
    match alookup key kv with
    | none => ([], false)
    | some v => (v, true)

/-- Get: SectionGet on the default section. -/
def INI.Get (ini : INI) (key : GoStr) : GoStr × Bool :=
  ini.SectionGet DefaultSection key

/-- Numeric value of a digit string. -/
def digitsVal (ds : GoStr) : Nat :=
  ds.foldl (fun acc c => acc * 10 + (c.toNat - 48)) 0

/-- Decimal digit test. -/
def isDigitChar (c : Char) : Bool := 48 ≤ c.toNat && c.toNat ≤ 57

/-- Model of strconv.Atoi (= ParseInt(s, 10, 0) on a 64-bit platform):
optional sign, at least one digit, nothing else, result within the int64
range; none models a non-nil error (syntax or range). -/
def Atoi (s : GoStr) : Option Int :=
  let p : Bool × GoStr :=
    match s with
    | '+' :: rest => (false, rest)
    | '-' :: rest => (true, rest)
    | _ => (false, s)
  if p.2 ≠ [] ∧ p.2.all isDigitChar = true then
    let n : Int := if p.1 then -(digitsVal p.2 : Int) else (digitsVal p.2 : Int)
    if -(2 ^ 63) ≤ n ∧ n < 2 ^ 63 then some n else none
  else none

/-- Model of strconv.ParseFloat(s, 64), restricted to finite decimal
literals: optional sign, decimal mantissa with optional fraction, optional
decimal exponent, magnitude below 2^1024 (overflow is a non-nil error).
The value is kept as an exact rational; Go's rounding to the nearest
float64, hex/inf/nan forms and underscores are not modelled — no claim
depends on them. -/
def goParseFloat (s : GoStr) : Option Rat :=
  let sp : Bool × GoStr :=
    match s with
    | '+' :: rest => (false, rest)
    | '-' :: rest => (true, rest)
    | _ => (false, s)
  let em : GoStr × Option GoStr :=
    match sp.2.findIdx? (fun c => c == 'e' || c == 'E') with
    | none => (sp.2, none)
    | some i => (sp.2.take i, some (sp.2.drop (i + 1)))
  let mant : Option Rat :=
    match em.1.findIdx? (fun c => c == '.') with
    | none =>
      if em.1 ≠ [] ∧ em.1.all isDigitChar = true then some ((digitsVal em.1 : Rat)) else none
    | some i =>
      let ip := em.1.take i
      let fp := em.1.drop (i + 1)
      if (ip ≠ [] ∨ fp ≠ []) ∧ ip.all isDigitChar = true ∧ fp.all isDigitChar = true then
        some ((digitsVal ip : Rat) + (digitsVal fp : Rat) / ((10 : Rat) ^ fp.length))
      else none
  match mant with
  | none => none
  | some m =>
    let me : Option Rat :=
      match em.2 with
      | none => some m
      | some e =>
        let esp : Bool × GoStr :=
          match e with
          | '+' :: rest => (false, rest)
          | '-' :: rest => (true, rest)
          | _ => (false, e)
        if esp.2 ≠ [] ∧ esp.2.all isDigitChar = true then
          some (if esp.1 then m / (10 : Rat) ^ digitsVal esp.2
                else m * (10 : Rat) ^ digitsVal esp.2)
        else none
    match me with
    | none => none
    | some q => if q < (2 : Rat) ^ 1024 then some (if sp.1 then -q else q) else none

/-- SectionGetInt: look the value up, convert with Atoi; on conversion
success return (n, true), otherwise fall through to `return 0, ok` —
note that ok is the lookup result, exactly as in the Go code. -/
def INI.SectionGetInt (ini : INI) (sec key : GoStr) : Int × Bool :=
  let r := ini.SectionGet sec key
  if r.2 then
    match Atoi r.1 with
    | some n => (n, true)
    | none => (0, r.2)
  else (0, r.2)

/-- GetInt: SectionGetInt on the default section. -/
def INI.GetInt (ini : INI) (key : GoStr) : Int × Bool :=
  ini.SectionGetInt DefaultSection key

/-- SectionGetFloat: like SectionGetInt with strconv.ParseFloat. -/
def INI.SectionGetFloat (ini : INI) (sec key : GoStr) : Rat × Bool :=
  let r := ini.SectionGet sec key
  if r.2 then
    match goParseFloat r.1 with
    | some q => (q, true)
    | none => (0, r.2)
  else (0, r.2)

/-- GetFloat: SectionGetFloat on the default section. -/
def INI.GetFloat (ini : INI) (key : GoStr) : Rat × Bool :=
  ini.SectionGetFloat DefaultSection key

/-- The truthy tokens of SectionGetBool's first switch case. -/
def truthyTokens : List GoStr :=
  ["1", "t", "T", "true", "TRUE", "True", "on", "ON", "On", "yes", "YES", "Yes"].map
    String.toList

/-- The falsy tokens of SectionGetBool's second switch case. -/
def falsyTokens : List GoStr :=
  ["0", "f", "F", "false", "FALSE", "False", "off", "OFF", "Off", "no", "NO", "No"].map
    String.toList

/-- SectionGetBool: switch on the stored string; any other value — and an
absent key — yields (false, false). -/
def INI.SectionGetBool (ini : INI) (sec key : GoStr) : Bool × Bool :=
  let r := ini.SectionGet sec key
  if r.2 then
    if r.1 ∈ truthyTokens then (true, true)
    else if r.1 ∈ falsyTokens then (false, true)
    else (false, false)
  else (false, false)

/-- GetBool: SectionGetBool on the default section. -/
def INI.GetBool (ini : INI) (key : GoStr) : Bool × Bool :=
  ini.SectionGetBool DefaultSection key

/-- SectionSet: store a triple, creating the section when absent. -/
def INI.SectionSet (ini : INI) (sec key value : GoStr) : INI :=
  let kv := (alookup sec ini.sections).getD []
  { ini with sections := aset sec (aset key value kv) ini.sections }

/-- Delete: remove the key from the given section's map (the section
itself stays, even when emptied). -/
def INI.Delete (ini : INI) (sec key : GoStr) : INI :=
  match alookup sec ini.sections with
  | none => ini
  | some kv => { ini with sections := aset sec (aremove key kv) ini.sections }

/-- One serialized key/value line (without the line terminator). -/
def kvLine (ksep : GoStr) (p : GoStr × GoStr) : GoStr := p.1 ++ ksep ++ p.2

/-- Serialization of one Kvmap: key, kvSep, value, lineSep for each pair. -/
def writeKV (ksep lsep : GoStr) (kv : Kvmap) : GoStr :=
  (kv.map (fun p => kvLine ksep p ++ lsep)).flatten

/-- Write: default section's pairs first (no header), then every other
section preceded by its bracketed header line. -/
def INI.Write (ini : INI) : GoStr :=
  (match alookup [] ini.sections with
   | some kv => writeKV ini.kvSep ini.lineSep kv
   | none => []) ++
    ((ini.sections.filter (fun p => !p.1.isEmpty)).map
      (fun p => ('[' :: p.1) ++ (']' :: ini.lineSep) ++ writeKV ini.kvSep ini.lineSep p.2)).flatten

/-- The serialized lines of one non-default section: the bracketed header
followed by one line per pair. -/
def secLines (kc : Char) (p : GoStr × Kvmap) : List GoStr :=
  ('[' :: (p.1 ++ [']'])) :: p.2.map (fun q => kvLine [kc] q)

/-- All lines written by Write, in order, without the line terminators:
the default section's pairs first, then every other section's block. -/
def writeLines (S : INI) (kc : Char) : List GoStr :=
  ((alookup [] S.sections).getD []).map (fun q => kvLine [kc] q) ++
    (S.sections.filter (fun p => !p.1.isEmpty)).flatMap (secLines kc)

/-- The DIFF_SECTION_ONLY_IN_A discrepancy kind (iota value 0). -/
def DIFF_SECTION_ONLY_IN_A : Nat := 0

/-- The DIFF_KEY_ONLY_IN_A discrepancy kind (iota value 1). -/
def DIFF_KEY_ONLY_IN_A : Nat := 1

/-- The DIFF_VALUES_DIFFER discrepancy kind (iota value 2). -/
def DIFF_VALUES_DIFFER : Nat := 2

/-- The DIFF_SECTION_ONLY_IN_B discrepancy kind (iota value 3). -/
def DIFF_SECTION_ONLY_IN_B : Nat := 3

/-- The DIFF_KEY_ONLY_IN_B discrepancy kind (iota value 4). -/
def DIFF_KEY_ONLY_IN_B : Nat := 4

/-- One discrepancy record; unset Go struct fields are the empty string. -/
structure DiffResult where
  State : Nat
  Section : GoStr
  Key : GoStr
  AVal : GoStr
  BVal : GoStr
deriving DecidableEq

/-- The Go struct literal emitted for a section present only in a. -/
def secOnlyA (s : GoStr) : DiffResult :=
  { State := DIFF_SECTION_ONLY_IN_A, Section := s, Key := [], AVal := [], BVal := [] }

/-- The Go struct literal emitted for a key present only in a's section. -/
def keyOnlyA (s k v : GoStr) : DiffResult :=
  { State := DIFF_KEY_ONLY_IN_A, Section := s, Key := k, AVal := v, BVal := [] }

/-- The Go struct literal emitted when the two values differ. -/
def valDiffer (s k va vb : GoStr) : DiffResult :=
  { State := DIFF_VALUES_DIFFER, Section := s, Key := k, AVal := va, BVal := vb }

/-- The Go struct literal emitted for a section present only in b. -/
def secOnlyB (s : GoStr) : DiffResult :=
  { State := DIFF_SECTION_ONLY_IN_B, Section := s, Key := [], AVal := [], BVal := [] }

/-- The Go struct literal emitted for a key present only in b's section. -/
def keyOnlyB (s k v : GoStr) : DiffResult :=
  { State := DIFF_KEY_ONLY_IN_B, Section := s, Key := k, AVal := [], BVal := v }

/-- Body of the inner loop of DiffINI's first pass, for one key of a's
section: key absent in b's section, or values compared. -/
def diffKey1 (asec : GoStr) (bsec : Kvmap) (k v : GoStr) : List DiffResult :=
  match alookup k bsec with
  | none => [keyOnlyA asec k v]
  | some bval => if v ≠ bval then [valDiffer asec k v bval] else []

/-- Body of the outer loop of DiffINI's first pass, for one section of a:
section absent in b, or every key compared. -/
def diffSec1 (asec : GoStr) (acont : Kvmap) (bsecs : SectionMap) : List DiffResult :=
  match alookup asec bsecs with
  | none => [secOnlyA asec]
  | some bsec => acont.flatMap (fun kp => diffKey1 asec bsec kp.1 kp.2)

/-- First pass of DiffINI: walk a's sections against b. -/
def diffPass1 (asecs bsecs : SectionMap) : List DiffResult :=
  asecs.flatMap (fun ap => diffSec1 ap.1 ap.2 bsecs)

/-- Body of the inner loop of DiffINI's second pass: only key-only-in-b
records; values-differ is not re-emitted here. -/
def diffKey2 (bsec : GoStr) (asec : Kvmap) (k v : GoStr) : List DiffResult :=
  match alookup k asec with
  | none => [keyOnlyB bsec k v]
  | some _ => []

/-- Body of the outer loop of DiffINI's second pass, for one section of b. -/
def diffSec2 (bsec : GoStr) (bcont : Kvmap) (asecs : SectionMap) : List DiffResult :=
  match alookup bsec asecs with
  | none => [secOnlyB bsec]
  | some asec => bcont.flatMap (fun kp => diffKey2 bsec asec kp.1 kp.2)

/-- Second pass of DiffINI: walk b's sections against a. -/
def diffPass2 (bsecs asecs : SectionMap) : List DiffResult :=
  bsecs.flatMap (fun bp => diffSec2 bp.1 bp.2 asecs)

/-- Exchange of the -in-A and -in-B discrepancy kinds. -/
def swapState (st : Nat) : Nat :=
  if st = DIFF_SECTION_ONLY_IN_A then DIFF_SECTION_ONLY_IN_B
  else if st = DIFF_SECTION_ONLY_IN_B then DIFF_SECTION_ONLY_IN_A
  else if st = DIFF_KEY_ONLY_IN_A then DIFF_KEY_ONLY_IN_B
  else if st = DIFF_KEY_ONLY_IN_B then DIFF_KEY_ONLY_IN_A
  else st

/-- Mirror of a discrepancy record: kinds exchanged, values exchanged. -/
def swapResult (r : DiffResult) : DiffResult :=
  { State := swapState r.State, Section := r.Section, Key := r.Key, AVal := r.BVal,
    BVal := r.AVal }

/-- DiffINI: both passes, in order. -/
def DiffINI (a b : INI) : List DiffResult :=
  diffPass1 a.sections b.sections ++ diffPass2 b.sections a.sections

/-- A store whose key k holds the non-numeric string abc. -/
def cexStore : INI := { New with sections := [(DefaultSection, [(['k'], ['a', 'b', 'c'])])] }

/-- A store holding one truthy-token value and one unrecognized value. -/
def boolStore : INI :=
  { New with sections := [(DefaultSection, [(['k'], "YES".toList), (['m'], "maybe".toList)])] }

/-- A store with one non-default section holding one key. -/
def dStore : INI := { New with sections := [(['s'], [(['k'], ['v'])])] }

/-- Diff witness store A: section a with keys k and x, empty section d. -/
def c5A : INI :=
  { New with sections := [(['a'], [(['k'], ['1']), (['x'], ['7'])]), (['d'], [])] }

/-- Diff witness store B: section a with key k (other value), empty section e. -/
def c5B : INI := { New with sections := [(['a'], [(['k'], ['2'])]), (['e'], [])] }

/-- A store whose only value carries a leading space (and contains
neither separator token). -/
def c6Store : INI := { New with sections := [(DefaultSection, [(['a'], [' ', '1'])])] }

/-- A store with a default pair and one non-default section, safe for the
round trip. -/
def c6Good : INI :=
  { New with sections := [(DefaultSection, [(['a'], ['1'])]), (['s'], [(['c'], ['3'])])] }

end Goini

namespace Goini

theorem alookup_aset_self {α : Type} (k : GoStr) (v : α) (m : List (GoStr × α)) :
    alookup k (aset k v m) = some v := by
  induction m with
  | nil => simp [aset, alookup]
  | cons p rest ih =>
    obtain ⟨k', v'⟩ := p
    by_cases h : k' = k
    · subst h; simp [aset, alookup]
    · simp [aset, alookup, h, ih]

theorem alookup_aset_ne {α : Type} {s k : GoStr} (v : α) (m : List (GoStr × α)) (h : s ≠ k) :
    alookup s (aset k v m) = alookup s m := by
  have hks : ¬ k = s := fun hh => h hh.symm
  induction m with
  | nil => simp [aset, alookup, hks]
  | cons p rest ih =>
    obtain ⟨k', v'⟩ := p
    by_cases hk : k' = k
    · subst hk
      simp [aset, alookup, hks]
    · simp only [aset, if_neg hk]
      by_cases hs : k' = s
      · simp [alookup, hs]
      · simp [alookup, hs, ih]

theorem isSome_alookup_aset {α : Type} (s k : GoStr) (v : α) (m : List (GoStr × α))
    (h : (alookup s m).isSome = true) : (alookup s (aset k v m)).isSome = true := by
  by_cases hk : s = k
  · subst hk; simp [alookup_aset_self]
  · rwa [alookup_aset_ne v m hk]

theorem mem_of_alookup_eq_some {α : Type} {k : GoStr} {v : α} {m : List (GoStr × α)}
    (h : alookup k m = some v) : (k, v) ∈ m := by
  induction m with
  | nil => simp [alookup] at h
  | cons p rest ih =>
    obtain ⟨k', v'⟩ := p
    by_cases hk : k' = k
    · rw [alookup, if_pos hk] at h
      injection h with hv
      subst hk; subst hv
      exact List.mem_cons_self ..
    · rw [alookup, if_neg hk] at h
      exact List.mem_cons_of_mem _ (ih h)

theorem mem_aset {α : Type} {p : GoStr × α} {k : GoStr} {v : α} (m : List (GoStr × α)) :
    p ∈ aset k v m → p = (k, v) ∨ p ∈ m := by
  induction m with
  | nil => intro h; simpa [aset] using h
  | cons q rest ih =>
    intro h
    obtain ⟨k', v'⟩ := q
    by_cases hk : k' = k
    · subst hk
      rw [aset, if_pos rfl] at h
      rcases List.mem_cons.mp h with h1 | h1
      · exact Or.inl h1
      · exact Or.inr (List.mem_cons_of_mem _ h1)
    · rw [aset, if_neg hk] at h
      rcases List.mem_cons.mp h with h1 | h1
      · exact Or.inr (by simp [h1])
      · rcases ih h1 with h2 | h2
        · exact Or.inl h2
        · exact Or.inr (List.mem_cons_of_mem _ h2)

theorem keysNodup_aset {α : Type} {m : List (GoStr × α)} (k : GoStr) (v : α)
    (h : keysNodup m) : keysNodup (aset k v m) := by
  induction m with
  | nil => simp [aset, keysNodup]
  | cons p rest ih =>
    obtain ⟨k', v'⟩ := p
    rw [keysNodup, List.map_cons, List.nodup_cons] at h
    obtain ⟨hnotin, hrest⟩ := h
    by_cases hk : k' = k
    · subst hk
      rw [aset, if_pos rfl, keysNodup, List.map_cons, List.nodup_cons]
      exact ⟨hnotin, hrest⟩
    · rw [aset, if_neg hk, keysNodup, List.map_cons, List.nodup_cons]
      refine ⟨?_, ih hrest⟩
      intro hmem
      rw [List.mem_map] at hmem
      obtain ⟨q, hq, hq1⟩ := hmem
      rcases mem_aset _ hq with h' | h'
      · rw [h'] at hq1
        exact hk hq1.symm
      · exact hnotin (List.mem_map.mpr ⟨q, h', hq1⟩)

theorem keysNodup_of_alookup_getD {secs : SectionMap} (cursec : GoStr)
    (h : WFsecs secs) : keysNodup ((alookup cursec secs).getD []) := by
  cases hl : alookup cursec secs with
  | none => simp [keysNodup]
  | some kv =>
    simpa using h.2 _ (mem_of_alookup_eq_some hl)

theorem WFsecs_aset (secs : SectionMap) (s : GoStr) (kv : Kvmap)
    (h : WFsecs secs) (hkv : keysNodup kv) : WFsecs (aset s kv secs) := by
  refine ⟨keysNodup_aset s kv h.1, ?_⟩
  intro p hp
  rcases mem_aset _ hp with h' | h'
  · rw [h']; exact hkv
  · exact h.2 p h'

theorem parseLines_cons_shape (skipC parseSec trimQ : Bool) (ksep l : GoStr)
    (cursec : GoStr) (secs : SectionMap) :
    (∃ cursec' secs',
      (∀ rest, parseLines skipC parseSec trimQ ksep (l :: rest) cursec secs =
        parseLines skipC parseSec trimQ ksep rest cursec' secs') ∧
      (∀ s, (alookup s secs).isSome = true → (alookup s secs').isSome = true) ∧
      (WFsecs secs → WFsecs secs')) ∨
    ∀ rest, parseLines skipC parseSec trimQ ksep (l :: rest) cursec secs =
      (cursec, secs, some (GoError.formatError (errMsg (trimSpace l)))) := by
  cases htl : trimSpace l with
  | nil =>
    exact Or.inl ⟨cursec, secs, fun rest => by simp only [parseLines, htl],
      fun _ h => h, fun h => h⟩
  | cons c cs =>
    by_cases h1 : (skipC = true ∧ c = ';') ∨ c = '#'
    · exact Or.inl ⟨cursec, secs, fun rest => by simp only [parseLines, htl, if_pos h1],
        fun _ h => h, fun h => h⟩
    · by_cases h2 : parseSec = true ∧ c = '[' ∧ (c :: cs).getLast? = some ']'
      · refine Or.inl ⟨cs.dropLast, aset cs.dropLast [] secs,
          fun rest => by simp only [parseLines, htl, if_neg h1, if_pos h2], ?_, ?_⟩
        · exact fun s h => isSome_alookup_aset s _ _ _ h
        · exact fun h => WFsecs_aset _ _ _ h (by simp [keysNodup])
      · cases hidx : indexOfSeq ksep (c :: cs) with
        | none =>
          refine Or.inr fun rest => ?_
          simp only [parseLines, htl, if_neg h1, if_neg h2, hidx]
        | some pos =>
          refine Or.inl ⟨cursec,
            aset cursec (aset (trimSpace ((c :: cs).take pos))
              (if trimQ = true then trimQuoteEnds (trimSpace ((c :: cs).drop (pos + ksep.length)))
               else trimSpace ((c :: cs).drop (pos + ksep.length)))
              ((alookup cursec secs).getD [])) secs, ?_, ?_, ?_⟩
          · intro rest
            simp only [parseLines, htl, if_neg h1, if_neg h2, hidx]
          · exact fun s h => isSome_alookup_aset s _ _ _ h
          · intro h
            exact WFsecs_aset _ _ _ h
              (keysNodup_aset _ _ (keysNodup_of_alookup_getD cursec h))

theorem parseLines_isSome (skipC parseSec trimQ : Bool) (ksep : GoStr) (lines : List GoStr) :
    ∀ cursec secs s, (alookup s secs).isSome = true →
      (alookup s (parseLines skipC parseSec trimQ ksep lines cursec secs).2.1).isSome = true := by
  induction lines with
  | nil => intro cursec secs s h; simpa [parseLines] using h
  | cons l rest ih =>
    intro cursec secs s h
    rcases parseLines_cons_shape skipC parseSec trimQ ksep l cursec secs with
      ⟨c', s', heq, hsome, _⟩ | heq
    · rw [heq rest]; exact ih c' s' s (hsome s h)
    · rw [heq rest]; exact h

theorem parseLines_WF (skipC parseSec trimQ : Bool) (ksep : GoStr) (lines : List GoStr) :
    ∀ cursec secs, WFsecs secs →
      WFsecs (parseLines skipC parseSec trimQ ksep lines cursec secs).2.1 := by
  induction lines with
  | nil => intro cursec secs h; simpa [parseLines] using h
  | cons l rest ih =>
    intro cursec secs h
    rcases parseLines_cons_shape skipC parseSec trimQ ksep l cursec secs with
      ⟨c', s', heq, _, hwf⟩ | heq
    · rw [heq rest]; exact ih c' s' (hwf h)
    · rw [heq rest]; exact h

theorem parseLines_append (skipC parseSec trimQ : Bool) (ksep : GoStr) (xs ys : List GoStr) :
    ∀ cursec secs,
      parseLines skipC parseSec trimQ ksep (xs ++ ys) cursec secs =
        (match parseLines skipC parseSec trimQ ksep xs cursec secs with
         | (c', s', none) => parseLines skipC parseSec trimQ ksep ys c' s'
         | (c', s', some e) => (c', s', some e)) := by
  induction xs with
  | nil => intro cursec secs; simp [parseLines]
  | cons l rest ih =>
    intro cursec secs
    rcases parseLines_cons_shape skipC parseSec trimQ ksep l cursec secs with
      ⟨c', s', heq, _, _⟩ | heq
    · rw [List.cons_append, heq (rest ++ ys), ih c' s', heq rest]
    · rw [List.cons_append, heq (rest ++ ys), heq rest]

theorem parseLines_blank (skipC parseSec trimQ : Bool) (ksep l : GoStr) (rest : List GoStr)
    (cursec : GoStr) (secs : SectionMap) (h : trimSpace l = []) :
    parseLines skipC parseSec trimQ ksep (l :: rest) cursec secs =
      parseLines skipC parseSec trimQ ksep rest cursec secs := by
  simp only [parseLines, h]

theorem parseLines_comment (skipC parseSec trimQ : Bool) (ksep l : GoStr) (rest : List GoStr)
    (cursec : GoStr) (secs : SectionMap) (c : Char) (cs : GoStr) (h : trimSpace l = c :: cs)
    (hc : (skipC = true ∧ c = ';') ∨ c = '#') :
    parseLines skipC parseSec trimQ ksep (l :: rest) cursec secs =
      parseLines skipC parseSec trimQ ksep rest cursec secs := by
  simp only [parseLines, h]
  rw [if_pos hc]

theorem parseLines_header (skipC parseSec trimQ : Bool) (ksep l : GoStr) (rest : List GoStr)
    (cursec : GoStr) (secs : SectionMap) (c : Char) (cs : GoStr) (h : trimSpace l = c :: cs)
    (hc : ¬((skipC = true ∧ c = ';') ∨ c = '#'))
    (hh : parseSec = true ∧ c = '[' ∧ (c :: cs).getLast? = some ']') :
    parseLines skipC parseSec trimQ ksep (l :: rest) cursec secs =
      parseLines skipC parseSec trimQ ksep rest cs.dropLast (aset cs.dropLast [] secs) := by
  simp only [parseLines, h]
  rw [if_neg hc, if_pos hh]

theorem parseLines_error_line (skipC parseSec trimQ : Bool) (ksep l : GoStr)
    (rest : List GoStr) (cursec : GoStr) (secs : SectionMap) (c : Char) (cs : GoStr)
    (h : trimSpace l = c :: cs)
    (hc : ¬((skipC = true ∧ c = ';') ∨ c = '#'))
    (hh : ¬(parseSec = true ∧ c = '[' ∧ (c :: cs).getLast? = some ']'))
    (hi : indexOfSeq ksep (c :: cs) = none) :
    parseLines skipC parseSec trimQ ksep (l :: rest) cursec secs =
      (cursec, secs, some (GoError.formatError (errMsg (c :: cs)))) := by
  simp only [parseLines, h, hi]
  rw [if_neg hc, if_neg hh]

theorem parseLines_kv (skipC parseSec trimQ : Bool) (ksep l : GoStr) (rest : List GoStr)
    (cursec : GoStr) (secs : SectionMap) (c : Char) (cs : GoStr) (pos : Nat)
    (h : trimSpace l = c :: cs)
    (hc : ¬((skipC = true ∧ c = ';') ∨ c = '#'))
    (hh : ¬(parseSec = true ∧ c = '[' ∧ (c :: cs).getLast? = some ']'))
    (hi : indexOfSeq ksep (c :: cs) = some pos) :
    parseLines skipC parseSec trimQ ksep (l :: rest) cursec secs =
      parseLines skipC parseSec trimQ ksep rest cursec
        (aset cursec (aset (trimSpace ((c :: cs).take pos))
          (if trimQ = true then trimQuoteEnds (trimSpace ((c :: cs).drop (pos + ksep.length)))
           else trimSpace ((c :: cs).drop (pos + ksep.length)))
          ((alookup cursec secs).getD [])) secs) := by
  simp only [parseLines, h, hi]
  rw [if_neg hc, if_neg hh]

theorem parseINI_sections (ini : INI) (data lineSep kvSep : GoStr) :
    (parseINI ini data lineSep kvSep).1.sections =
      (parseLines ini.skipCommits ini.parseSection ini.trimQuotes kvSep
        (splitOnSep lineSep data) [] (aset [] [] ini.sections)).2.1 := rfl

theorem parseINI_WF (ini : INI) (data lineSep kvSep : GoStr) (h : WFINI ini) :
    WFINI (parseINI ini data lineSep kvSep).1 := by
  rw [WFINI, parseINI_sections]
  exact parseLines_WF _ _ _ _ _ _ _ (WFsecs_aset _ _ _ h (by simp [keysNodup]))

/-- C10: a successful ParseFile sets the parseSection and skipCommits
flags to true; Parse and ParseFrom never change either flag, so the flags
remain true for all subsequent parse calls on the same store; a failed
file read leaves the store (flags included) untouched. -/
theorem C10_parseFile_flags (fs : GoStr → Option GoStr) (ini : INI) (fn : GoStr) :
    (∀ c, fs fn = some c →
      (ini.ParseFile fs fn).1.parseSection = true ∧
      (ini.ParseFile fs fn).1.skipCommits = true) ∧
    (∀ ini' : INI, ∀ data lsep ksep,
      (ini'.Parse data lsep ksep).1.parseSection = ini'.parseSection ∧
      (ini'.Parse data lsep ksep).1.skipCommits = ini'.skipCommits) ∧
    (∀ ini' : INI, ∀ r lsep ksep,
      (INI.ParseFrom ini' r lsep ksep).1.parseSection = ini'.parseSection ∧
      (INI.ParseFrom ini' r lsep ksep).1.skipCommits = ini'.skipCommits) ∧
    (fs fn = none → ini.ParseFile fs fn = (ini, some GoError.ioErr)) := by
  refine ⟨?_, ?_, ?_, ?_⟩
  · intro c hc
    simp [INI.ParseFile, hc, parseINI]
  · intro ini' data lsep ksep
    simp [INI.Parse, parseINI]
  · intro ini' r lsep ksep
    cases r with
    | none => simp [INI.ParseFrom]
    | some data => simp [INI.ParseFrom, parseINI]
  · intro h; simp [INI.ParseFile, h]

/-- C10: witness at a concrete file system: a successful read turns both
flags on, a failed read returns the store unchanged. -/
theorem C10_parseFile_flags_witness :
    (New.ParseFile (fun _ => some []) []).1.parseSection = true ∧
    (New.ParseFile (fun _ => some []) []).1.skipCommits = true ∧
    New.ParseFile (fun _ => none) [] = (New, some GoError.ioErr) := by
  refine ⟨?_, ?_, ?_⟩
  · exact ((C10_parseFile_flags (fun _ => some []) New []).1 [] rfl).1
  · exact ((C10_parseFile_flags (fun _ => some []) New []).1 [] rfl).2
  · exact (C10_parseFile_flags (fun _ => none) New []).2.2.2 rfl

/-- C8: after any parseINI call (succeeding or failing) the default
section is present; Delete never removes a section, even when it empties
it; Reset drops all sections. -/
theorem C8_invariants :
    (∀ ini : INI, ∀ data lsep ksep,
      (alookup DefaultSection ((parseINI ini data lsep ksep).1.sections)).isSome = true) ∧
    (∀ ini : INI, ∀ sec key s, (alookup s ini.sections).isSome = true →
      (alookup s ((ini.Delete sec key).sections)).isSome = true) ∧
    ∀ ini : INI, ini.Reset.sections = [] := by
  refine ⟨?_, ?_, fun _ => rfl⟩
  · intro ini data lsep ksep
    rw [parseINI_sections]
    exact parseLines_isSome _ _ _ _ _ _ _ _
      (by rw [DefaultSection, alookup_aset_self]; rfl)
  · intro ini sec key s h
    rw [INI.Delete]
    cases hl : alookup sec ini.sections with
    | none => exact h
    | some kv => exact isSome_alookup_aset s _ _ _ h

theorem alookup_eq_some_of_mem {α : Type} {m : List (GoStr × α)} {k : GoStr} {v : α}
    (hnd : keysNodup m) (h : (k, v) ∈ m) : alookup k m = some v := by
  induction m with
  | nil => simp at h
  | cons p rest ih =>
    obtain ⟨k', v'⟩ := p
    rw [keysNodup, List.map_cons, List.nodup_cons] at hnd
    rcases List.mem_cons.mp h with h1 | h1
    · obtain ⟨rfl, rfl⟩ := Prod.mk.injEq .. ▸ h1.symm
      rw [alookup, if_pos rfl]
    · have hk : k' ≠ k := by
        rintro rfl
        exact hnd.1 (List.mem_map.mpr ⟨(k', v), h1, rfl⟩)
      rw [alookup, if_neg hk]
      exact ih hnd.2 h1

theorem diffKey1_none (asec : GoStr) (bsec : Kvmap) (k v : GoStr)
    (h : alookup k bsec = none) : diffKey1 asec bsec k v = [keyOnlyA asec k v] := by
  unfold diffKey1
  rw [h]

theorem diffKey1_some_ne (asec : GoStr) (bsec : Kvmap) (k v bval : GoStr)
    (h : alookup k bsec = some bval) (hne : v ≠ bval) :
    diffKey1 asec bsec k v = [valDiffer asec k v bval] := by
  unfold diffKey1
  rw [h]
  show (if v ≠ bval then [valDiffer asec k v bval] else []) = [valDiffer asec k v bval]
  rw [if_pos hne]

theorem diffKey1_some_eq (asec : GoStr) (bsec : Kvmap) (k v bval : GoStr)
    (h : alookup k bsec = some bval) (he : v = bval) : diffKey1 asec bsec k v = [] := by
  unfold diffKey1
  rw [h]
  show (if v ≠ bval then [valDiffer asec k v bval] else []) = []
  rw [if_neg (not_not_intro he)]

theorem diffSec1_none (asec : GoStr) (acont : Kvmap) (bsecs : SectionMap)
    (h : alookup asec bsecs = none) : diffSec1 asec acont bsecs = [secOnlyA asec] := by
  unfold diffSec1
  rw [h]

theorem diffSec1_some (asec : GoStr) (acont : Kvmap) (bsecs : SectionMap) (bsec : Kvmap)
    (h : alookup asec bsecs = some bsec) :
    diffSec1 asec acont bsecs = acont.flatMap (fun kp => diffKey1 asec bsec kp.1 kp.2) := by
  unfold diffSec1
  rw [h]

theorem diffKey2_none (bsec : GoStr) (asec : Kvmap) (k v : GoStr)
    (h : alookup k asec = none) : diffKey2 bsec asec k v = [keyOnlyB bsec k v] := by
  unfold diffKey2
  rw [h]

theorem diffKey2_some (bsec : GoStr) (asec : Kvmap) (k v av : GoStr)
    (h : alookup k asec = some av) : diffKey2 bsec asec k v = [] := by
  unfold diffKey2
  rw [h]

theorem diffSec2_none (bsec : GoStr) (bcont : Kvmap) (asecs : SectionMap)
    (h : alookup bsec asecs = none) : diffSec2 bsec bcont asecs = [secOnlyB bsec] := by
  unfold diffSec2
  rw [h]

theorem diffSec2_some (bsec : GoStr) (bcont : Kvmap) (asecs : SectionMap) (asec : Kvmap)
    (h : alookup bsec asecs = some asec) :
    diffSec2 bsec bcont asecs = bcont.flatMap (fun kp => diffKey2 bsec asec kp.1 kp.2) := by
  unfold diffSec2
  rw [h]

theorem diffPass1_self (s : SectionMap) (h : WFsecs s) : diffPass1 s s = [] := by
  rw [diffPass1, List.flatMap_eq_nil_iff]
  intro ap hap
  rw [diffSec1_some _ _ _ _ (alookup_eq_some_of_mem h.1 (by rwa [Prod.mk.eta])),
    List.flatMap_eq_nil_iff]
  intro kp hkp
  exact diffKey1_some_eq _ _ _ _ _
    (alookup_eq_some_of_mem (h.2 ap hap) (by rwa [Prod.mk.eta])) rfl

theorem diffPass2_self (s : SectionMap) (h : WFsecs s) : diffPass2 s s = [] := by
  rw [diffPass2, List.flatMap_eq_nil_iff]
  intro bp hbp
  rw [diffSec2_some _ _ _ _ (alookup_eq_some_of_mem h.1 (by rwa [Prod.mk.eta])),
    List.flatMap_eq_nil_iff]
  intro kp hkp
  exact diffKey2_some _ _ _ _ _
    (alookup_eq_some_of_mem (h.2 bp hbp) (by rwa [Prod.mk.eta]))

/-- C4: diffing a well-formed store against itself yields no discrepancy
records, and so does diffing the results of two parses of identical input
with identical configuration (the parse is deterministic and preserves
well-formedness). -/
theorem C4_diff_self (S : INI) (h : WFINI S) :
    DiffINI S S = [] ∧
    ∀ ini : INI, ∀ data lsep ksep, WFINI ini →
      DiffINI (parseINI ini data lsep ksep).1 (parseINI ini data lsep ksep).1 = [] := by
  constructor
  · rw [DiffINI, diffPass1_self _ h, diffPass2_self _ h]; rfl
  · intro ini data lsep ksep hwf
    have h2 := parseINI_WF ini data lsep ksep hwf
    rw [DiffINI, diffPass1_self _ h2, diffPass2_self _ h2]; rfl

/-- C4: witness at a concrete well-formed store. -/
theorem C4_diff_self_witness : WFINI dStore ∧ DiffINI dStore dStore = [] :=
  ⟨by decide, (C4_diff_self dStore (by decide)).1⟩

/-- C2: during parse, a trimmed nonempty line whose first character is
'#' is skipped whatever the flags are; one whose first character is ';'
is skipped exactly when skip-comments is on, and with skip-comments off
such a line containing no key/value separator fails the parse with a
format error. -/
theorem C2_comment_lines (skipC parseSec trimQ : Bool) (ksep l : GoStr) (rest : List GoStr)
    (cursec : GoStr) (secs : SectionMap) :
    (∀ t, trimSpace l = '#' :: t →
      parseLines skipC parseSec trimQ ksep (l :: rest) cursec secs =
        parseLines skipC parseSec trimQ ksep rest cursec secs) ∧
    (∀ t, trimSpace l = ';' :: t → skipC = true →
      parseLines skipC parseSec trimQ ksep (l :: rest) cursec secs =
        parseLines skipC parseSec trimQ ksep rest cursec secs) ∧
    (∀ t, trimSpace l = ';' :: t → skipC = false → indexOfSeq ksep (';' :: t) = none →
      parseLines skipC parseSec trimQ ksep (l :: rest) cursec secs =
        (cursec, secs, some (GoError.formatError (errMsg (';' :: t))))) := by
  refine ⟨?_, ?_, ?_⟩
  · intro t h
    exact parseLines_comment skipC parseSec trimQ ksep l rest cursec secs '#' t h (Or.inr rfl)
  · intro t h hs
    exact parseLines_comment skipC parseSec trimQ ksep l rest cursec secs ';' t h
      (Or.inl ⟨hs, rfl⟩)
  · intro t h hs hi
    refine parseLines_error_line skipC parseSec trimQ ksep l rest cursec secs ';' t h ?_ ?_ hi
    · rintro (⟨h1, -⟩ | h2)
      · rw [hs] at h1; exact absurd h1 (by decide)
      · exact absurd h2 (by decide)
    · rintro ⟨-, h2, -⟩
      exact absurd h2 (by decide)

/-- C2: witness at concrete lines: a hash line is dropped with
skip-comments off, a semicolon line is dropped with skip-comments on,
and with skip-comments off the same semicolon line aborts the parse. -/
theorem C2_comment_lines_witness :
    (parseLines false false false ['='] ("#c".toList :: ["a=1".toList]) [] [([], [])] =
      parseLines false false false ['='] ["a=1".toList] [] [([], [])]) ∧
    (parseLines true false false ['='] (";c".toList :: ["a=1".toList]) [] [([], [])] =
      parseLines true false false ['='] ["a=1".toList] [] [([], [])]) ∧
    parseLines false false false ['='] (";c".toList :: ["a=1".toList]) [] [([], [])] =
      ([], [([], [])], some (GoError.formatError (errMsg (";c".toList)))) := by
  refine ⟨?_, ?_, ?_⟩
  · exact (C2_comment_lines false false false ['='] ("#c".toList) ["a=1".toList] []
      [([], [])]).1 ("c".toList) (by decide)
  · exact (C2_comment_lines true false false ['='] (";c".toList) ["a=1".toList] []
      [([], [])]).2.1 ("c".toList) (by decide) rfl
  · exact (C2_comment_lines false false false ['='] (";c".toList) ["a=1".toList] []
      [([], [])]).2.2 ("c".toList) (by decide) rfl (by decide)

/-- C7: with section parsing on, a bracket-delimited header line sets the
current section to the inner text and installs a fresh empty mapping for
that name, so prior content recorded for the same name in the pass is
discarded. -/
theorem C7_section_header (skipC trimQ : Bool) (ksep l : GoStr) (rest : List GoStr)
    (cursec inner : GoStr) (secs : SectionMap)
    (h : trimSpace l = '[' :: (inner ++ [']'])) :
    parseLines skipC true trimQ ksep (l :: rest) cursec secs =
      parseLines skipC true trimQ ksep rest inner (aset inner [] secs) ∧
    alookup inner (aset inner [] secs) = some [] := by
  constructor
  · have hdrop : (inner ++ [']']).dropLast = inner := by simp
    have hlast : ('[' :: (inner ++ [']'])).getLast? = some ']' := by
      rw [show ('[' :: (inner ++ [']'])) = ('[' :: inner) ++ [']'] by simp]
      exact List.getLast?_concat _
    have hc : ¬((skipC = true ∧ '[' = ';') ∨ '[' = '#') := by
      rintro (⟨-, h2⟩ | h2) <;> exact absurd h2 (by decide)
    have hstep := parseLines_header skipC true trimQ ksep l rest cursec secs '['
      (inner ++ [']']) h hc ⟨rfl, rfl, hlast⟩
    rwa [hdrop] at hstep
  · exact alookup_aset_self inner [] secs

/-- C7: witness: reopening section s after it already holds a=1 replaces
it with a fresh empty mapping. -/
theorem C7_section_header_witness :
    parseLines false true false ['='] ("[s]".toList :: ["b=2".toList]) []
        [([], []), (['s'], [(['a'], ['1'])])] =
      parseLines false true false ['='] ["b=2".toList] ['s']
        (aset ['s'] [] [([], []), (['s'], [(['a'], ['1'])])]) ∧
    alookup ['s'] (aset ['s'] [] [([], []), (['s'], [(['a'], ['1'])])]) = some [] := by
  exact C7_section_header false false ['='] ("[s]".toList) ["b=2".toList] [] ['s']
    [([], []), (['s'], [(['a'], ['1'])])] (by decide)

/-- C3: the first line with no key/value separator aborts the parse with
a format error whose message embeds that line's trimmed text; the lines
after it are never processed, and the sections built from the lines
before it are kept unchanged. -/
theorem C3_error_aborts (skipC parseSec trimQ : Bool) (ksep : GoStr) (pre post : List GoStr)
    (bad : GoStr) (c : Char) (cs cursec : GoStr) (secs : SectionMap)
    (hok : (parseLines skipC parseSec trimQ ksep pre cursec secs).2.2 = none)
    (htrim : trimSpace bad = c :: cs)
    (hcomment : ¬((skipC = true ∧ c = ';') ∨ c = '#'))
    (hheader : ¬(parseSec = true ∧ c = '[' ∧ (c :: cs).getLast? = some ']'))
    (hsep : indexOfSeq ksep (c :: cs) = none) :
    parseLines skipC parseSec trimQ ksep (pre ++ bad :: post) cursec secs =
      ((parseLines skipC parseSec trimQ ksep pre cursec secs).1,
       (parseLines skipC parseSec trimQ ksep pre cursec secs).2.1,
       some (GoError.formatError (errMsg (trimSpace bad)))) ∧
    errMsg (trimSpace bad) =
      "Came accross an error : ".toList ++ trimSpace bad ++
        " is NOT a valid key/value pair".toList := by
  refine ⟨?_, rfl⟩
  rw [parseLines_append]
  rcases hP : parseLines skipC parseSec trimQ ksep pre cursec secs with ⟨c1, s1, e1⟩
  rw [hP] at hok
  change e1 = none at hok
  subst hok
  rw [htrim]
  exact parseLines_error_line skipC parseSec trimQ ksep bad post c1 s1 c cs htrim
    hcomment hheader hsep

/-- C3: witness: with the good line a=1 before it, the malformed line bad
aborts, the trailing line b=2 is ignored and the a binding is kept. -/
theorem C3_error_aborts_witness :
    parseLines false false false ['='] (["a=1".toList] ++ "bad".toList :: ["b=2".toList]) []
        [([], [])] =
      ((parseLines false false false ['='] ["a=1".toList] [] [([], [])]).1,
       (parseLines false false false ['='] ["a=1".toList] [] [([], [])]).2.1,
       some (GoError.formatError (errMsg (trimSpace ("bad".toList))))) := by
  exact (C3_error_aborts false false false ['='] ["a=1".toList] ["b=2".toList] ("bad".toList)
    'b' ("ad".toList) [] [([], [])] (by decide) (by decide) (by decide) (by decide)
    (by decide)).1

/-- C8: witness: parsing anything into a fresh store creates the default
section, and deleting the only key of section s leaves s present. -/
theorem C8_invariants_witness :
    (alookup DefaultSection ((parseINI New [] DefaultLineSeparator
      DefaultKeyValueSeparator).1.sections)).isSome = true ∧
    (alookup ['s'] ((dStore.Delete ['s'] ['k']).sections)).isSome = true := by
  constructor
  · exact C8_invariants.1 New [] DefaultLineSeparator DefaultKeyValueSeparator
  · exact C8_invariants.2.1 dStore ['s'] ['k'] ['s'] (by decide)

end Goini

namespace Goini

theorem falsy_not_truthy : ∀ v ∈ falsyTokens, v ∉ truthyTokens := by decide

/-- C1: corrected form.  The typed getters return the zero value with
found=false when the key is absent, but with found=TRUE when the key is
present and the stored string fails to convert (the Go code falls through
to `return 0, ok` with ok = true); a stored "42" yields (42, true) from
the integer accessor, and "abc" fails Atoi. -/
theorem C1_typed_getters (ini : INI) (sec key : GoStr) :
    ((ini.SectionGet sec key).2 = false →
      ini.SectionGetInt sec key = (0, false) ∧ ini.SectionGetFloat sec key = (0, false)) ∧
    (∀ v, ini.SectionGet sec key = (v, true) →
      (Atoi v = none → ini.SectionGetInt sec key = (0, true)) ∧
      (∀ n, Atoi v = some n → ini.SectionGetInt sec key = (n, true)) ∧
      (goParseFloat v = none → ini.SectionGetFloat sec key = (0, true)) ∧
      (∀ q, goParseFloat v = some q → ini.SectionGetFloat sec key = (q, true))) ∧
    ini.GetInt key = ini.SectionGetInt DefaultSection key ∧
    ini.GetFloat key = ini.SectionGetFloat DefaultSection key ∧
    Atoi ['4', '2'] = some 42 ∧ Atoi ['a', 'b', 'c'] = none := by
  refine ⟨?_, ?_, rfl, rfl, by decide, by decide⟩
  · intro h
    constructor
    · simp [INI.SectionGetInt, h]
    · simp [INI.SectionGetFloat, h]
  · intro v hv
    refine ⟨?_, ?_, ?_, ?_⟩
    · intro ha; simp [INI.SectionGetInt, hv, ha]
    · intro n ha; simp [INI.SectionGetInt, hv, ha]
    · intro ha; simp [INI.SectionGetFloat, hv, ha]
    · intro q ha; simp [INI.SectionGetFloat, hv, ha]

/-- C1: witness for the corrected theorem at a concrete store: the value
abc under key k fails conversion and the getter reports (0, true). -/
theorem C1_typed_getters_witness :
    cexStore.SectionGet DefaultSection ['k'] = (['a', 'b', 'c'], true) ∧
    Atoi ['a', 'b', 'c'] = none ∧
    cexStore.SectionGetInt DefaultSection ['k'] = (0, true) := by
  refine ⟨by decide, by decide, ?_⟩
  exact ((C1_typed_getters cexStore DefaultSection ['k']).2.1 ['a', 'b', 'c']
    (by decide)).1 (by decide)

/-- C1: counterexample to the claim as stated.  With stored value abc the
claim demands (0, false), but both typed getters return (0, true). -/
theorem C1_counterexample :
    cexStore.SectionGetInt DefaultSection ['k'] = (0, true) ∧
    ¬ cexStore.SectionGetInt DefaultSection ['k'] = (0, false) ∧
    cexStore.SectionGetFloat DefaultSection ['k'] = (0, true) ∧
    ¬ cexStore.SectionGetFloat DefaultSection ['k'] = (0, false) := by
  refine ⟨by decide, by decide, ?_, ?_⟩ <;> simp [INI.SectionGetFloat, cexStore] <;> decide

/-- C9: the boolean getter returns (true, true) on the twelve truthy
tokens, (false, true) on the twelve falsy tokens, and (false, false) on
any other stored string as well as on an absent key. -/
theorem C9_bool_getter (ini : INI) (sec key : GoStr) :
    (∀ v, ini.SectionGet sec key = (v, true) →
      (v ∈ truthyTokens → ini.SectionGetBool sec key = (true, true)) ∧
      (v ∈ falsyTokens → ini.SectionGetBool sec key = (false, true)) ∧
      (v ∉ truthyTokens → v ∉ falsyTokens → ini.SectionGetBool sec key = (false, false))) ∧
    ((ini.SectionGet sec key).2 = false → ini.SectionGetBool sec key = (false, false)) ∧
    ini.GetBool key = ini.SectionGetBool DefaultSection key ∧
    truthyTokens =
      ["1", "t", "T", "true", "TRUE", "True", "on", "ON", "On", "yes", "YES", "Yes"].map
        String.toList ∧
    falsyTokens =
      ["0", "f", "F", "false", "FALSE", "False", "off", "OFF", "Off", "no", "NO", "No"].map
        String.toList := by
  refine ⟨?_, ?_, rfl, rfl, rfl⟩
  · intro v hv
    refine ⟨fun ht => ?_, fun hf => ?_, fun hnt hnf => ?_⟩
    · simp [INI.SectionGetBool, hv, ht]
    · have hnt := falsy_not_truthy v hf
      simp [INI.SectionGetBool, hv, hf, hnt]
    · simp [INI.SectionGetBool, hv, hnt, hnf]
  · intro h; simp [INI.SectionGetBool, h]

/-- C9: witness at a concrete store: stored YES yields (true, true) and
stored maybe yields (false, false). -/
theorem C9_bool_getter_witness :
    boolStore.SectionGetBool DefaultSection ['k'] = (true, true) ∧
    boolStore.SectionGetBool DefaultSection ['m'] = (false, false) := by
  constructor
  · exact (((C9_bool_getter boolStore DefaultSection ['k']).1 ("YES".toList)
      (by decide)).1 (by decide))
  · exact (((C9_bool_getter boolStore DefaultSection ['m']).1 ("maybe".toList)
      (by decide)).2.2 (by decide) (by decide))

theorem keysNodup_pairwise {α : Type} (m : List (GoStr × α)) :
    keysNodup m ↔ m.Pairwise (fun p q => p.1 ≠ q.1) := by
  induction m with
  | nil => simp [keysNodup]
  | cons p rest ih =>
    rw [List.pairwise_cons, ← ih]
    show (List.map Prod.fst (p :: rest)).Nodup ↔ _
    rw [List.map_cons, List.nodup_cons]
    constructor
    · rintro ⟨h1, h2⟩
      exact ⟨fun q hq he => h1 (List.mem_map.mpr ⟨q, hq, he.symm⟩), h2⟩
    · rintro ⟨h1, h2⟩
      refine ⟨fun hmem => ?_, h2⟩
      rw [List.mem_map] at hmem
      obtain ⟨q, hq, he⟩ := hmem
      exact h1 q hq he.symm

theorem swapState_swapState (st : Nat) : swapState (swapState st) = st := by
  simp only [swapState, DIFF_SECTION_ONLY_IN_A, DIFF_SECTION_ONLY_IN_B, DIFF_KEY_ONLY_IN_A,
    DIFF_KEY_ONLY_IN_B]
  split_ifs <;> first | rfl | omega | simp_all

theorem swapResult_swapResult : ∀ r : DiffResult, swapResult (swapResult r) = r := by
  intro r
  cases r
  simp [swapResult, swapState_swapState]

theorem swapResult_injective : Function.Injective swapResult :=
  Function.Involutive.injective swapResult_swapResult

theorem swap_secOnlyA (s : GoStr) : swapResult (secOnlyA s) = secOnlyB s := rfl

theorem swap_secOnlyB (s : GoStr) : swapResult (secOnlyB s) = secOnlyA s := rfl

theorem swap_keyOnlyA (s k v : GoStr) : swapResult (keyOnlyA s k v) = keyOnlyB s k v := rfl

theorem swap_keyOnlyB (s k v : GoStr) : swapResult (keyOnlyB s k v) = keyOnlyA s k v := rfl

theorem swap_valDiffer (s k va vb : GoStr) :
    swapResult (valDiffer s k va vb) = valDiffer s k vb va := rfl

theorem mem_map_swapResult (r : DiffResult) (L : List DiffResult) :
    r ∈ L.map swapResult ↔ swapResult r ∈ L := by
  rw [List.mem_map]
  constructor
  · rintro ⟨x, hx, rfl⟩
    rwa [swapResult_swapResult]
  · intro h
    exact ⟨swapResult r, h, swapResult_swapResult r⟩

theorem mem_diffKey1 (asec : GoStr) (bsec : Kvmap) (k v : GoStr) (r : DiffResult)
    (h : r ∈ diffKey1 asec bsec k v) :
    r.Section = asec ∧ r.Key = k ∧
      (r.State = DIFF_KEY_ONLY_IN_A ∨ r.State = DIFF_VALUES_DIFFER) := by
  rcases hb : alookup k bsec with _ | bval
  · rw [diffKey1_none _ _ _ _ hb, List.mem_singleton] at h
    subst h
    exact ⟨rfl, rfl, Or.inl rfl⟩
  · by_cases hne : v = bval
    · rw [diffKey1_some_eq _ _ _ _ _ hb hne] at h
      simp at h
    · rw [diffKey1_some_ne _ _ _ _ _ hb hne, List.mem_singleton] at h
      subst h
      exact ⟨rfl, rfl, Or.inr rfl⟩

theorem mem_diffSec1 (asec : GoStr) (acont : Kvmap) (bsecs : SectionMap) (r : DiffResult)
    (h : r ∈ diffSec1 asec acont bsecs) :
    r.Section = asec ∧
      (r.State = DIFF_SECTION_ONLY_IN_A ∨ r.State = DIFF_KEY_ONLY_IN_A ∨
        r.State = DIFF_VALUES_DIFFER) := by
  rcases hb : alookup asec bsecs with _ | bsec
  · rw [diffSec1_none _ _ _ hb, List.mem_singleton] at h
    subst h
    exact ⟨rfl, Or.inl rfl⟩
  · rw [diffSec1_some _ _ _ _ hb, List.mem_flatMap] at h
    obtain ⟨kp, hkp, h⟩ := h
    have h2 := mem_diffKey1 asec bsec kp.1 kp.2 r h
    exact ⟨h2.1, h2.2.2.elim (fun h' => Or.inr (Or.inl h')) (fun h' => Or.inr (Or.inr h'))⟩

theorem mem_diffKey2 (bsec : GoStr) (asec : Kvmap) (k v : GoStr) (r : DiffResult)
    (h : r ∈ diffKey2 bsec asec k v) :
    r.Section = bsec ∧ r.Key = k ∧ r.State = DIFF_KEY_ONLY_IN_B := by
  rcases ha : alookup k asec with _ | av
  · rw [diffKey2_none _ _ _ _ ha, List.mem_singleton] at h
    subst h
    exact ⟨rfl, rfl, rfl⟩
  · rw [diffKey2_some _ _ _ _ _ ha] at h
    simp at h

theorem mem_diffSec2 (bsec : GoStr) (bcont : Kvmap) (asecs : SectionMap) (r : DiffResult)
    (h : r ∈ diffSec2 bsec bcont asecs) :
    r.Section = bsec ∧
      (r.State = DIFF_SECTION_ONLY_IN_B ∨ r.State = DIFF_KEY_ONLY_IN_B) := by
  rcases ha : alookup bsec asecs with _ | asec
  · rw [diffSec2_none _ _ _ ha, List.mem_singleton] at h
    subst h
    exact ⟨rfl, Or.inl rfl⟩
  · rw [diffSec2_some _ _ _ _ ha, List.mem_flatMap] at h
    obtain ⟨kp, hkp, h⟩ := h
    have h2 := mem_diffKey2 bsec asec kp.1 kp.2 r h
    exact ⟨h2.1, Or.inr h2.2.2⟩

theorem nodup_diffKey1 (asec : GoStr) (bsec : Kvmap) (k v : GoStr) :
    (diffKey1 asec bsec k v).Nodup := by
  rcases hb : alookup k bsec with _ | bval
  · rw [diffKey1_none _ _ _ _ hb]
    simp
  · by_cases hne : v = bval
    · rw [diffKey1_some_eq _ _ _ _ _ hb hne]
      simp
    · rw [diffKey1_some_ne _ _ _ _ _ hb hne]
      simp

theorem nodup_diffKey2 (bsec : GoStr) (asec : Kvmap) (k v : GoStr) :
    (diffKey2 bsec asec k v).Nodup := by
  rcases ha : alookup k asec with _ | av
  · rw [diffKey2_none _ _ _ _ ha]
    simp
  · rw [diffKey2_some _ _ _ _ _ ha]
    simp

theorem nodup_diffSec1 (asec : GoStr) (acont : Kvmap) (bsecs : SectionMap)
    (hnd : keysNodup acont) : (diffSec1 asec acont bsecs).Nodup := by
  rcases hb : alookup asec bsecs with _ | bsec
  · rw [diffSec1_none _ _ _ hb]
    simp
  · rw [diffSec1_some _ _ _ _ hb, List.nodup_flatMap]
    refine ⟨fun kp _ => nodup_diffKey1 asec bsec kp.1 kp.2, ?_⟩
    refine ((keysNodup_pairwise acont).1 hnd).imp ?_
    intro p q hne r hrp hrq
    exact hne ((mem_diffKey1 asec bsec p.1 p.2 r hrp).2.1.symm.trans
      (mem_diffKey1 asec bsec q.1 q.2 r hrq).2.1)

theorem nodup_diffSec2 (bsec : GoStr) (bcont : Kvmap) (asecs : SectionMap)
    (hnd : keysNodup bcont) : (diffSec2 bsec bcont asecs).Nodup := by
  rcases ha : alookup bsec asecs with _ | asec
  · rw [diffSec2_none _ _ _ ha]
    simp
  · rw [diffSec2_some _ _ _ _ ha, List.nodup_flatMap]
    refine ⟨fun kp _ => nodup_diffKey2 bsec asec kp.1 kp.2, ?_⟩
    refine ((keysNodup_pairwise bcont).1 hnd).imp ?_
    intro p q hne r hrp hrq
    exact hne ((mem_diffKey2 bsec asec p.1 p.2 r hrp).2.1.symm.trans
      (mem_diffKey2 bsec asec q.1 q.2 r hrq).2.1)

theorem nodup_diffPass1 (asecs bsecs : SectionMap) (ha : WFsecs asecs) :
    (diffPass1 asecs bsecs).Nodup := by
  rw [diffPass1, List.nodup_flatMap]
  refine ⟨fun ap hap => nodup_diffSec1 ap.1 ap.2 bsecs (ha.2 ap hap), ?_⟩
  refine ((keysNodup_pairwise asecs).1 ha.1).imp ?_
  intro p q hne r hrp hrq
  exact hne ((mem_diffSec1 p.1 p.2 bsecs r hrp).1.symm.trans
    (mem_diffSec1 q.1 q.2 bsecs r hrq).1)

theorem nodup_diffPass2 (bsecs asecs : SectionMap) (hb : WFsecs bsecs) :
    (diffPass2 bsecs asecs).Nodup := by
  rw [diffPass2, List.nodup_flatMap]
  refine ⟨fun bp hbp => nodup_diffSec2 bp.1 bp.2 asecs (hb.2 bp hbp), ?_⟩
  refine ((keysNodup_pairwise bsecs).1 hb.1).imp ?_
  intro p q hne r hrp hrq
  exact hne ((mem_diffSec2 p.1 p.2 asecs r hrp).1.symm.trans
    (mem_diffSec2 q.1 q.2 asecs r hrq).1)

theorem mem_diffPass1_states (asecs bsecs : SectionMap) (r : DiffResult)
    (h : r ∈ diffPass1 asecs bsecs) :
    r.State = DIFF_SECTION_ONLY_IN_A ∨ r.State = DIFF_KEY_ONLY_IN_A ∨
      r.State = DIFF_VALUES_DIFFER := by
  rw [diffPass1, List.mem_flatMap] at h
  obtain ⟨ap, hap, h⟩ := h
  exact (mem_diffSec1 ap.1 ap.2 bsecs r h).2

theorem mem_diffPass2_states (bsecs asecs : SectionMap) (r : DiffResult)
    (h : r ∈ diffPass2 bsecs asecs) :
    r.State = DIFF_SECTION_ONLY_IN_B ∨ r.State = DIFF_KEY_ONLY_IN_B := by
  rw [diffPass2, List.mem_flatMap] at h
  obtain ⟨bp, hbp, h⟩ := h
  exact (mem_diffSec2 bp.1 bp.2 asecs r h).2

theorem nodup_DiffINI (A B : INI) (hA : WFINI A) (hB : WFINI B) : (DiffINI A B).Nodup := by
  rw [DiffINI]
  refine List.Nodup.append (nodup_diffPass1 _ _ hA) (nodup_diffPass2 _ _ hB) ?_
  intro r hr1 hr2
  rcases mem_diffPass1_states _ _ r hr1 with h1 | h1 | h1 <;>
    rcases mem_diffPass2_states _ _ r hr2 with h2 | h2 <;>
      exact absurd (h1.symm.trans h2) (by decide)

theorem mem_diffPass1_iff {asecs bsecs : SectionMap} (ha : WFsecs asecs) (r : DiffResult) :
    r ∈ diffPass1 asecs bsecs ↔
      (∃ s cont, alookup s asecs = some cont ∧ alookup s bsecs = none ∧ r = secOnlyA s) ∨
      (∃ s cont bsec k v, alookup s asecs = some cont ∧ alookup s bsecs = some bsec ∧
        alookup k cont = some v ∧ alookup k bsec = none ∧ r = keyOnlyA s k v) ∨
      (∃ s cont bsec k v bv, alookup s asecs = some cont ∧ alookup s bsecs = some bsec ∧
        alookup k cont = some v ∧ alookup k bsec = some bv ∧ v ≠ bv ∧
        r = valDiffer s k v bv) := by
  constructor
  · intro h
    rw [diffPass1, List.mem_flatMap] at h
    obtain ⟨ap, hap, h⟩ := h
    have h1 : alookup ap.1 asecs = some ap.2 :=
      alookup_eq_some_of_mem ha.1 (by rwa [Prod.mk.eta])
    rcases hb : alookup ap.1 bsecs with _ | bsec
    · rw [diffSec1_none _ _ _ hb, List.mem_singleton] at h
      exact Or.inl ⟨ap.1, ap.2, h1, hb, h⟩
    · rw [diffSec1_some _ _ _ _ hb, List.mem_flatMap] at h
      obtain ⟨kp, hkp, h⟩ := h
      have h2 : alookup kp.1 ap.2 = some kp.2 :=
        alookup_eq_some_of_mem (ha.2 ap hap) (by rwa [Prod.mk.eta])
      rcases hbk : alookup kp.1 bsec with _ | bval
      · rw [diffKey1_none _ _ _ _ hbk, List.mem_singleton] at h
        exact Or.inr (Or.inl ⟨ap.1, ap.2, bsec, kp.1, kp.2, h1, hb, h2, hbk, h⟩)
      · by_cases hne : kp.2 = bval
        · rw [diffKey1_some_eq _ _ _ _ _ hbk hne] at h
          simp at h
        · rw [diffKey1_some_ne _ _ _ _ _ hbk hne, List.mem_singleton] at h
          exact Or.inr (Or.inr ⟨ap.1, ap.2, bsec, kp.1, kp.2, bval, h1, hb, h2, hbk, hne, h⟩)
  · intro h
    rw [diffPass1, List.mem_flatMap]
    rcases h with ⟨s, cont, h1, h2, rfl⟩ | ⟨s, cont, bsec, k, v, h1, h2, h3, h4, rfl⟩ |
      ⟨s, cont, bsec, k, v, bv, h1, h2, h3, h4, h5, rfl⟩
    · refine ⟨(s, cont), mem_of_alookup_eq_some h1, ?_⟩
      show secOnlyA s ∈ diffSec1 s cont bsecs
      rw [diffSec1_none _ _ _ h2]
      exact List.mem_singleton.mpr rfl
    · refine ⟨(s, cont), mem_of_alookup_eq_some h1, ?_⟩
      show keyOnlyA s k v ∈ diffSec1 s cont bsecs
      rw [diffSec1_some _ _ _ _ h2, List.mem_flatMap]
      refine ⟨(k, v), mem_of_alookup_eq_some h3, ?_⟩
      show keyOnlyA s k v ∈ diffKey1 s bsec k v
      rw [diffKey1_none _ _ _ _ h4]
      exact List.mem_singleton.mpr rfl
    · refine ⟨(s, cont), mem_of_alookup_eq_some h1, ?_⟩
      show valDiffer s k v bv ∈ diffSec1 s cont bsecs
      rw [diffSec1_some _ _ _ _ h2, List.mem_flatMap]
      refine ⟨(k, v), mem_of_alookup_eq_some h3, ?_⟩
      show valDiffer s k v bv ∈ diffKey1 s bsec k v
      rw [diffKey1_some_ne _ _ _ _ _ h4 h5]
      exact List.mem_singleton.mpr rfl

theorem mem_diffPass2_iff {bsecs asecs : SectionMap} (hb : WFsecs bsecs) (r : DiffResult) :
    r ∈ diffPass2 bsecs asecs ↔
      (∃ s cont, alookup s bsecs = some cont ∧ alookup s asecs = none ∧ r = secOnlyB s) ∨
      (∃ s cont asec k v, alookup s bsecs = some cont ∧ alookup s asecs = some asec ∧
        alookup k cont = some v ∧ alookup k asec = none ∧ r = keyOnlyB s k v) := by
  constructor
  · intro h
    rw [diffPass2, List.mem_flatMap] at h
    obtain ⟨bp, hbp, h⟩ := h
    have h1 : alookup bp.1 bsecs = some bp.2 :=
      alookup_eq_some_of_mem hb.1 (by rwa [Prod.mk.eta])
    rcases ha : alookup bp.1 asecs with _ | asec
    · rw [diffSec2_none _ _ _ ha, List.mem_singleton] at h
      exact Or.inl ⟨bp.1, bp.2, h1, ha, h⟩
    · rw [diffSec2_some _ _ _ _ ha, List.mem_flatMap] at h
      obtain ⟨kp, hkp, h⟩ := h
      have h2 : alookup kp.1 bp.2 = some kp.2 :=
        alookup_eq_some_of_mem (hb.2 bp hbp) (by rwa [Prod.mk.eta])
      rcases hak : alookup kp.1 asec with _ | av
      · rw [diffKey2_none _ _ _ _ hak, List.mem_singleton] at h
        exact Or.inr ⟨bp.1, bp.2, asec, kp.1, kp.2, h1, ha, h2, hak, h⟩
      · rw [diffKey2_some _ _ _ _ _ hak] at h
        simp at h
  · intro h
    rw [diffPass2, List.mem_flatMap]
    rcases h with ⟨s, cont, h1, h2, rfl⟩ | ⟨s, cont, asec, k, v, h1, h2, h3, h4, rfl⟩
    · refine ⟨(s, cont), mem_of_alookup_eq_some h1, ?_⟩
      show secOnlyB s ∈ diffSec2 s cont asecs
      rw [diffSec2_none _ _ _ h2]
      exact List.mem_singleton.mpr rfl
    · refine ⟨(s, cont), mem_of_alookup_eq_some h1, ?_⟩
      show keyOnlyB s k v ∈ diffSec2 s cont asecs
      rw [diffSec2_some _ _ _ _ h2, List.mem_flatMap]
      refine ⟨(k, v), mem_of_alookup_eq_some h3, ?_⟩
      show keyOnlyB s k v ∈ diffKey2 s asec k v
      rw [diffKey2_none _ _ _ _ h4]
      exact List.mem_singleton.mpr rfl

theorem mem_DiffINI_swap {A B : INI} (hA : WFINI A) (hB : WFINI B) (r : DiffResult) :
    r ∈ DiffINI B A ↔ swapResult r ∈ DiffINI A B := by
  rw [DiffINI, DiffINI, List.mem_append, List.mem_append, mem_diffPass1_iff hB,
    mem_diffPass2_iff hB (r := swapResult r), mem_diffPass1_iff hA (r := swapResult r),
    mem_diffPass2_iff hA]
  constructor
  · rintro ((⟨s, cont, h1, h2, rfl⟩ | ⟨s, cont, asec, k, v, h1, h2, h3, h4, rfl⟩ |
      ⟨s, cont, asec, k, v, av, h1, h2, h3, h4, h5, rfl⟩) |
      (⟨s, cont, h1, h2, rfl⟩ | ⟨s, cont, bsec, k, v, h1, h2, h3, h4, rfl⟩))
    · exact Or.inr (Or.inl ⟨s, cont, h1, h2, swap_secOnlyA s⟩)
    · exact Or.inr (Or.inr ⟨s, cont, asec, k, v, h1, h2, h3, h4, swap_keyOnlyA s k v⟩)
    · exact Or.inl (Or.inr (Or.inr ⟨s, asec, cont, k, av, v, h2, h1, h4, h3,
        fun he => h5 he.symm, (swap_valDiffer s k v av).trans rfl⟩))
    · exact Or.inl (Or.inl ⟨s, cont, h1, h2, swap_secOnlyB s⟩)
    · exact Or.inl (Or.inr (Or.inl ⟨s, cont, bsec, k, v, h1, h2, h3, h4,
        swap_keyOnlyB s k v⟩))
  · rintro ((⟨s, cont, h1, h2, heq⟩ | ⟨s, cont, bsec, k, v, h1, h2, h3, h4, heq⟩ |
      ⟨s, cont, bsec, k, v, bv, h1, h2, h3, h4, h5, heq⟩) |
      (⟨s, cont, h1, h2, heq⟩ | ⟨s, cont, asec, k, v, h1, h2, h3, h4, heq⟩))
    · have hr : r = secOnlyB s := by
        rw [← swapResult_swapResult r, heq, swap_secOnlyA]
      exact Or.inr (Or.inl ⟨s, cont, h1, h2, hr⟩)
    · have hr : r = keyOnlyB s k v := by
        rw [← swapResult_swapResult r, heq, swap_keyOnlyA]
      exact Or.inr (Or.inr ⟨s, cont, bsec, k, v, h1, h2, h3, h4, hr⟩)
    · have hr : r = valDiffer s k bv v := by
        rw [← swapResult_swapResult r, heq, swap_valDiffer]
      exact Or.inl (Or.inr (Or.inr ⟨s, bsec, cont, k, bv, v, h2, h1, h4, h3,
        fun he => h5 he.symm, hr⟩))
    · have hr : r = secOnlyA s := by
        rw [← swapResult_swapResult r, heq, swap_secOnlyB]
      exact Or.inl (Or.inl ⟨s, cont, h1, h2, hr⟩)
    · have hr : r = keyOnlyA s k v := by
        rw [← swapResult_swapResult r, heq, swap_keyOnlyB]
      exact Or.inl (Or.inr (Or.inl ⟨s, cont, asec, k, v, h1, h2, h3, h4, hr⟩))

/-- C5: for well-formed stores, DiffINI(B,A) is a permutation of the
kind-swapped records of DiffINI(A,B); every values-differ record of
DiffINI(A,B) is emitted by the first (A-to-B) pass only; when a key is
present on both sides with differing values its mismatch record appears
exactly once; and a key present on both sides with equal values produces
no record at all. -/
theorem C5_diff_antisym (A B : INI) (hA : WFINI A) (hB : WFINI B) :
    (DiffINI B A).Perm ((DiffINI A B).map swapResult) ∧
    (∀ r ∈ DiffINI A B, r.State = DIFF_VALUES_DIFFER →
      r ∈ diffPass1 A.sections B.sections) ∧
    (∀ s k ca cb va vb, alookup s A.sections = some ca → alookup s B.sections = some cb →
      alookup k ca = some va → alookup k cb = some vb → va ≠ vb →
      (DiffINI A B).count (valDiffer s k va vb) = 1) ∧
    (∀ s k ca cb v, alookup s A.sections = some ca → alookup s B.sections = some cb →
      alookup k ca = some v → alookup k cb = some v →
      ∀ r ∈ DiffINI A B, ¬(r.Section = s ∧ r.Key = k ∧
        (r.State = DIFF_KEY_ONLY_IN_A ∨ r.State = DIFF_VALUES_DIFFER ∨
          r.State = DIFF_KEY_ONLY_IN_B))) := by
  refine ⟨?_, ?_, ?_, ?_⟩
  · refine (List.perm_ext_iff_of_nodup (nodup_DiffINI B A hB hA)
      ((nodup_DiffINI A B hA hB).map swapResult_injective)).2 ?_
    intro r
    rw [mem_map_swapResult]
    exact mem_DiffINI_swap hA hB r
  · intro r hr hst
    rcases List.mem_append.mp hr with h | h
    · exact h
    · rcases mem_diffPass2_states _ _ r h with h2 | h2 <;>
        exact absurd (hst.symm.trans h2) (by decide)
  · intro s k ca cb va vb h1 h2 h3 h4 h5
    refine List.count_eq_one_of_mem (nodup_DiffINI A B hA hB) ?_
    rw [DiffINI, List.mem_append]
    left
    rw [mem_diffPass1_iff hA]
    exact Or.inr (Or.inr ⟨s, ca, cb, k, va, vb, h1, h2, h3, h4, h5, rfl⟩)
  · intro s k ca cb v h1 h2 h3 h4 r hr
    rintro ⟨hsec, hkey, hst⟩
    rcases List.mem_append.mp hr with h | h
    · rw [mem_diffPass1_iff hA] at h
      rcases h with ⟨s', cont, g1, g2, rfl⟩ | ⟨s', cont, bsec, k', v', g1, g2, g3, g4, rfl⟩ |
        ⟨s', cont, bsec, k', v', bv, g1, g2, g3, g4, g5, rfl⟩
      · rcases hst with h' | h' | h' <;>
          simp [secOnlyA, DIFF_SECTION_ONLY_IN_A, DIFF_KEY_ONLY_IN_A, DIFF_VALUES_DIFFER,
            DIFF_KEY_ONLY_IN_B] at h'
      · have hs : s' = s := hsec
        have hk : k' = k := hkey
        subst hs
        subst hk
        have hcb : bsec = cb := by injection g2.symm.trans h2
        subst hcb
        exact Option.noConfusion (h4.symm.trans g4)
      · have hs : s' = s := hsec
        have hk : k' = k := hkey
        subst hs
        subst hk
        have hca : cont = ca := by injection g1.symm.trans h1
        have hcb : bsec = cb := by injection g2.symm.trans h2
        subst hca
        subst hcb
        have hv1 : v' = v := by injection g3.symm.trans h3
        have hv2 : bv = v := by injection g4.symm.trans h4
        exact g5 (hv1.trans hv2.symm)
    · rw [mem_diffPass2_iff hB] at h
      rcases h with ⟨s', cont, g1, g2, rfl⟩ | ⟨s', cont, asec, k', v', g1, g2, g3, g4, rfl⟩
      · rcases hst with h' | h' | h' <;>
          simp [secOnlyB, DIFF_SECTION_ONLY_IN_B, DIFF_KEY_ONLY_IN_A, DIFF_VALUES_DIFFER,
            DIFF_KEY_ONLY_IN_B] at h'
      · have hs : s' = s := hsec
        have hk : k' = k := hkey
        subst hs
        subst hk
        have hca : asec = ca := by injection g2.symm.trans h1
        subst hca
        exact Option.noConfusion (h3.symm.trans g4)

/-- C5: witness at concrete stores whose diff contains a record of every
kind. -/
theorem C5_diff_antisym_witness :
    WFINI c5A ∧ WFINI c5B ∧
    (DiffINI c5B c5A).Perm ((DiffINI c5A c5B).map swapResult) := by
  refine ⟨by decide, by decide, ?_⟩
  exact (C5_diff_antisym c5A c5B (by decide) (by decide)).1

theorem not_mem_keys_cons {α : Type} {k : GoStr} {p : GoStr × α} {rest : List (GoStr × α)}
    (h : k ∉ ((p :: rest).map Prod.fst)) : p.1 ≠ k ∧ k ∉ rest.map Prod.fst := by
  rw [List.map_cons] at h
  constructor
  · intro he
    subst he
    exact h (List.mem_cons_self ..)
  · intro hm
    exact h (List.mem_cons_of_mem _ hm)

theorem alookup_append_right {α : Type} (k : GoStr) (m1 m2 : List (GoStr × α))
    (h : k ∉ m1.map Prod.fst) : alookup k (m1 ++ m2) = alookup k m2 := by
  induction m1 with
  | nil => rfl
  | cons p rest ih =>
    obtain ⟨h1, h2⟩ := not_mem_keys_cons h
    obtain ⟨k', v⟩ := p
    rw [List.cons_append, alookup, if_neg h1]
    exact ih h2

theorem aset_append_fresh {α : Type} (s : GoStr) (x : α) (m : List (GoStr × α))
    (h : s ∉ m.map Prod.fst) : aset s x m = m ++ [(s, x)] := by
  induction m with
  | nil => rfl
  | cons p rest ih =>
    obtain ⟨h1, h2⟩ := not_mem_keys_cons h
    obtain ⟨k', v⟩ := p
    rw [aset, if_neg h1, List.cons_append, ih h2]

theorem aset_append_last {α : Type} (s : GoStr) (x y : α) (pre : List (GoStr × α))
    (h : s ∉ pre.map Prod.fst) : aset s y (pre ++ [(s, x)]) = pre ++ [(s, y)] := by
  induction pre with
  | nil => simp [aset]
  | cons p rest ih =>
    obtain ⟨h1, h2⟩ := not_mem_keys_cons h
    obtain ⟨k', v⟩ := p
    rw [List.cons_append, aset, if_neg h1, List.cons_append, ih h2]

theorem alookup_filter_ne_nil {α : Type} (s : GoStr) (m : List (GoStr × α)) (h : s ≠ []) :
    alookup s (m.filter (fun p => !p.1.isEmpty)) = alookup s m := by
  induction m with
  | nil => rfl
  | cons p rest ih =>
    by_cases hp : p.1 = []
    · rw [List.filter_cons, if_neg (by simp [hp]), ih, alookup,
        if_neg (fun he => h (by rw [← he]; exact hp))]
    · rw [List.filter_cons, if_pos (by simp [hp])]
      rw [alookup, alookup]
      by_cases hs : p.1 = s
      · rw [if_pos hs, if_pos hs]
      · rw [if_neg hs, if_neg hs, ih]

theorem indexOfSeq_single (c : Char) (a b : GoStr) (h : c ∉ a) :
    indexOfSeq [c] (a ++ c :: b) = some a.length := by
  induction a with
  | nil =>
    rw [List.nil_append, indexOfSeq, if_pos (by simp [List.isPrefixOf])]
    rfl
  | cons x a' ih =>
    rw [List.mem_cons] at h
    push_neg at h
    rw [List.cons_append, indexOfSeq, if_neg (by simp [List.isPrefixOf]; exact h.1),
      ih h.2]
    rfl

theorem trimSpace_nil : trimSpace [] = [] := rfl

theorem trimSpace_eq_self_of_ends (s : GoStr)
    (h1 : ∀ c, s.head? = some c → isSpaceChar c = false)
    (h2 : ∀ c, s.getLast? = some c → isSpaceChar c = false) :
    trimSpace s = s := by
  unfold trimSpace
  have hleft : s.dropWhile isSpaceChar = s := by
    cases s with
    | nil => rfl
    | cons x t =>
      rw [List.dropWhile_cons, if_neg (by simp [h1 x rfl])]
  rw [hleft]
  cases hsr : s.reverse with
  | nil =>
    have : s = [] := by simpa using congrArg List.reverse hsr
    simp [this]
  | cons y t =>
    have hy : s.getLast? = some y := by
      rw [← List.head?_reverse, hsr]
      rfl
    rw [List.dropWhile_cons, if_neg (by simp [h2 y hy]), ← hsr, List.reverse_reverse]

theorem splitOnSepAux_single_nosep (c : Char) (a : GoStr) (h : c ∉ a) :
    ∀ fuel acc, a.length ≤ fuel → splitOnSepAux [c] fuel a acc = [acc.reverse ++ a] := by
  induction a with
  | nil =>
    intro fuel acc _
    cases fuel <;> simp [splitOnSepAux]
  | cons x a' ih =>
    intro fuel acc hf
    rw [List.mem_cons] at h
    push_neg at h
    cases fuel with
    | zero => simp at hf
    | succ f =>
      rw [splitOnSepAux, if_neg (by simp [List.isPrefixOf]; exact h.1),
        ih h.2 f (x :: acc) (by simpa using hf)]
      simp

theorem splitOnSepAux_single_sep (c : Char) (a : GoStr) (h : c ∉ a) :
    ∀ fuel b acc, (a ++ c :: b).length ≤ fuel →
      splitOnSepAux [c] fuel (a ++ c :: b) acc =
        (acc.reverse ++ a) :: splitOnSepAux [c] (fuel - (a.length + 1)) b [] := by
  induction a with
  | nil =>
    intro fuel b acc hf
    cases fuel with
    | zero => simp at hf
    | succ f =>
      rw [List.nil_append, splitOnSepAux, if_pos (by simp [List.isPrefixOf])]
      simp
  | cons x a' ih =>
    intro fuel b acc hf
    rw [List.mem_cons] at h
    push_neg at h
    cases fuel with
    | zero => simp at hf
    | succ f =>
      rw [List.cons_append, splitOnSepAux, if_neg (by simp [List.isPrefixOf]; exact h.1),
        ih h.2 f b (x :: acc) (by simpa using hf)]
      have harith : f - (a'.length + 1) = f + 1 - (a'.length + 1 + 1) := by omega
      rw [harith]
      simp [List.length_cons]

theorem splitOnSepAux_joined (c : Char) (lines : List GoStr)
    (h : ∀ l ∈ lines, c ∉ l) :
    ∀ fuel, ((lines.map (fun l => l ++ [c])).flatten).length ≤ fuel →
      splitOnSepAux [c] fuel ((lines.map (fun l => l ++ [c])).flatten) [] =
        lines ++ [[]] := by
  induction lines with
  | nil =>
    intro fuel _
    cases fuel <;> rfl
  | cons l rest ih =>
    intro fuel hf
    have hjoin : ((l :: rest).map (fun l => l ++ [c])).flatten =
        l ++ c :: ((rest.map (fun l => l ++ [c])).flatten) := by
      simp
    rw [hjoin] at hf ⊢
    rw [splitOnSepAux_single_sep c l (h l (List.mem_cons_self ..)) fuel _ [] hf]
    rw [ih (fun q hq => h q (List.mem_cons_of_mem _ hq)) (fuel - (l.length + 1))
      (by simp at hf ⊢; omega)]
    simp

theorem splitOnSep_joined (c : Char) (lines : List GoStr) (h : ∀ l ∈ lines, c ∉ l) :
    splitOnSep [c] ((lines.map (fun l => l ++ [c])).flatten) = lines ++ [[]] := by
  rw [splitOnSep, if_neg (by simp)]
  exact splitOnSepAux_joined c lines h _ le_rfl

theorem map_append_flatten (lc : Char) (L1 L2 : List GoStr) :
    (((L1 ++ L2).map (fun l => l ++ [lc])).flatten) =
      ((L1.map (fun l => l ++ [lc])).flatten) ++ ((L2.map (fun l => l ++ [lc])).flatten) := by
  rw [List.map_append, List.flatten_append]

theorem writeKV_eq (kc lc : Char) (kv : Kvmap) :
    writeKV [kc] [lc] kv =
      ((kv.map (fun q => kvLine [kc] q)).map (fun l => l ++ [lc])).flatten := by
  rw [writeKV, List.map_map]
  rfl

theorem secBlocks_eq (kc lc : Char) (F : List (GoStr × Kvmap)) :
    ((F.map (fun p => ('[' :: p.1) ++ (']' :: [lc]) ++ writeKV [kc] [lc] p.2)).flatten) =
      (((F.flatMap (secLines kc)).map (fun l => l ++ [lc])).flatten) := by
  induction F with
  | nil => rfl
  | cons p F' ih =>
    rw [List.map_cons, List.flatten_cons, List.flatMap_cons, List.map_append,
      List.flatten_append, ← ih]
    congr 1
    rw [secLines, List.map_cons, List.flatten_cons, writeKV_eq]
    simp

theorem Write_eq (S : INI) (lc kc : Char) (hl : S.lineSep = [lc]) (hk : S.kvSep = [kc])
    (dkv : Kvmap) (h0 : alookup [] S.sections = some dkv) :
    S.Write = ((writeLines S kc).map (fun l => l ++ [lc])).flatten := by
  rw [writeLines, h0, INI.Write, hl, hk, h0]
  show writeKV [kc] [lc] dkv ++
      ((S.sections.filter (fun p => !p.1.isEmpty)).map
        (fun p => ('[' :: p.1) ++ (']' :: [lc]) ++ writeKV [kc] [lc] p.2)).flatten = _
  rw [map_append_flatten, writeKV_eq kc lc dkv, secBlocks_eq]
  rfl

theorem parseLines_kvpair (kc : Char) (k v : GoStr) (rest : List GoStr) (cursec : GoStr)
    (secs : SectionMap)
    (htrim : trimSpace (k ++ kc :: v) = k ++ kc :: v)
    (htk : trimSpace k = k) (htv : trimSpace v = v)
    (hkc : kc ∉ k)
    (hhash : (k ++ kc :: v).head? ≠ some '#')
    (hbr : ¬((k ++ kc :: v).head? = some '[' ∧ (k ++ kc :: v).getLast? = some ']')) :
    parseLines false true false [kc] ((k ++ kc :: v) :: rest) cursec secs =
      parseLines false true false [kc] rest cursec
        (aset cursec (aset k v ((alookup cursec secs).getD [])) secs) := by
  obtain ⟨c, cs, hline⟩ : ∃ c cs, k ++ kc :: v = c :: cs := by
    cases k with
    | nil => exact ⟨kc, v, rfl⟩
    | cons x k' => exact ⟨x, k' ++ kc :: v, rfl⟩
  have hidx : indexOfSeq [kc] (c :: cs) = some k.length := by
    rw [← hline]
    exact indexOfSeq_single kc k v hkc
  have hc : ¬((false = true ∧ c = ';') ∨ c = '#') := by
    rintro (⟨h1, -⟩ | h2)
    · exact absurd h1 (by decide)
    · apply hhash
      rw [hline, h2]
      rfl
  have hh : ¬(true = true ∧ c = '[' ∧ (c :: cs).getLast? = some ']') := by
    rintro ⟨-, h2, h3⟩
    apply hbr
    rw [hline]
    refine ⟨?_, h3⟩
    rw [h2]
    rfl
  have hstep := parseLines_kv false true false [kc] (k ++ kc :: v) rest cursec secs c cs
    k.length (htrim.trans hline) hc hh hidx
  rw [hstep]
  have htake : (c :: cs).take k.length = k := by
    rw [← hline]
    simp
  have hdrop : (c :: cs).drop (k.length + List.length [kc]) = v := by
    rw [← hline, show k ++ kc :: v = (k ++ [kc]) ++ v by simp,
      show k.length + List.length [kc] = (k ++ [kc]).length by simp]
    simp
  rw [htake, hdrop, htk, htv]
  simp

theorem parseLines_secheader (kc : Char) (sname : GoStr) (rest : List GoStr)
    (cursec : GoStr) (secs : SectionMap) :
    parseLines false true false [kc] (('[' :: (sname ++ [']'])) :: rest) cursec secs =
      parseLines false true false [kc] rest sname (aset sname [] secs) := by
  have hlast : ('[' :: (sname ++ [']'])).getLast? = some ']' := by
    rw [show ('[' :: (sname ++ [']'])) = ('[' :: sname) ++ [']'] by simp,
      List.getLast?_concat]
  have htrim : trimSpace ('[' :: (sname ++ [']'])) = '[' :: (sname ++ [']']) := by
    apply trimSpace_eq_self_of_ends
    · intro c hc
      simp only [List.head?_cons, Option.some.injEq] at hc
      subst hc
      rfl
    · intro c hc
      rw [hlast] at hc
      injection hc with hc
      subst hc
      rfl
  have hc : ¬((false = true ∧ '[' = ';') ∨ '[' = '#') := by
    rintro (⟨h1, -⟩ | h2)
    · exact absurd h1 (by decide)
    · exact absurd h2 (by decide)
  have hstep := parseLines_header false true false [kc] ('[' :: (sname ++ [']'])) rest
    cursec secs '[' (sname ++ [']']) htrim hc ⟨rfl, rfl, hlast⟩
  rwa [show (sname ++ [']']).dropLast = sname by simp] at hstep

theorem parseLines_blank_nil (kc : Char) (cursec : GoStr) (secs : SectionMap) :
    parseLines false true false [kc] [[]] cursec secs = (cursec, secs, none) := by
  rw [parseLines_blank false true false [kc] [] [] cursec secs rfl]
  rfl

theorem keysNodup_cons {α : Type} {q : GoStr × α} {qs : List (GoStr × α)}
    (h : keysNodup (q :: qs)) : q.1 ∉ qs.map Prod.fst ∧ keysNodup qs := by
  rw [keysNodup, List.map_cons, List.nodup_cons] at h
  exact h

theorem foldl_aset_disjoint {α : Type} (pairs : List (GoStr × α)) :
    ∀ m : List (GoStr × α), (∀ q ∈ pairs, q.1 ∉ m.map Prod.fst) → keysNodup pairs →
      pairs.foldl (fun acc q => aset q.1 q.2 acc) m = m ++ pairs := by
  induction pairs with
  | nil =>
    intro m _ _
    simp
  | cons q qs ih =>
    intro m hd hnd
    obtain ⟨hq, hqs⟩ := keysNodup_cons hnd
    simp only [List.foldl_cons]
    rw [aset_append_fresh q.1 q.2 m (hd q (List.mem_cons_self ..))]
    rw [ih (m ++ [(q.1, q.2)]) ?_ hqs]
    · simp
    · intro r hr
      rw [List.map_append, List.mem_append]
      rintro (h1 | h1)
      · exact hd r (List.mem_cons_of_mem _ hr) h1
      · simp only [List.map_cons, List.map_nil, List.mem_singleton] at h1
        exact hq (h1 ▸ List.mem_map.mpr ⟨r, hr, rfl⟩)

theorem parseLines_kvblock (kc : Char) (pairs : Kvmap) :
    ∀ (rest : List GoStr) (s : GoStr) (pre : SectionMap) (acc : Kvmap),
      s ∉ pre.map Prod.fst →
      (∀ q ∈ pairs, trimSpace (kvLine [kc] q) = kvLine [kc] q ∧ trimSpace q.1 = q.1 ∧
        trimSpace q.2 = q.2 ∧ kc ∉ q.1 ∧ (kvLine [kc] q).head? ≠ some '#' ∧
        ¬((kvLine [kc] q).head? = some '[' ∧ (kvLine [kc] q).getLast? = some ']')) →
      parseLines false true false [kc] (pairs.map (fun q => kvLine [kc] q) ++ rest) s
          (pre ++ [(s, acc)]) =
        parseLines false true false [kc] rest s
          (pre ++ [(s, pairs.foldl (fun acc q => aset q.1 q.2 acc) acc)]) := by
  induction pairs with
  | nil =>
    intro rest s pre acc _ _
    simp
  | cons q qs ih =>
    intro rest s pre acc hs hp
    obtain ⟨hq1, hq2, hq3, hq4, hq5, hq6⟩ := hp q (List.mem_cons_self ..)
    have hkv : kvLine [kc] q = q.1 ++ kc :: q.2 := by
      rw [kvLine]
      simp
    rw [hkv] at hq1 hq5 hq6
    simp only [List.map_cons, List.cons_append]
    rw [hkv, parseLines_kvpair kc q.1 q.2 _ s _ hq1 hq2 hq3 hq4 hq5 hq6]
    have hlk : alookup s (pre ++ [(s, acc)]) = some acc := by
      rw [alookup_append_right s pre _ hs, alookup, if_pos rfl]
    rw [hlk]
    show parseLines false true false [kc] (qs.map (fun q => kvLine [kc] q) ++ rest) s
        (aset s (aset q.1 q.2 acc) (pre ++ [(s, acc)])) = _
    rw [aset_append_last s acc (aset q.1 q.2 acc) pre hs,
      ih rest s pre (aset q.1 q.2 acc) hs (fun r hr => hp r (List.mem_cons_of_mem _ hr))]
    rfl

theorem parseLines_secblock (kc : Char) (p : GoStr × Kvmap) (rest : List GoStr)
    (cursec : GoStr) (pre : SectionMap)
    (hfresh : p.1 ∉ pre.map Prod.fst)
    (hnd : keysNodup p.2)
    (hp : ∀ q ∈ p.2, trimSpace (kvLine [kc] q) = kvLine [kc] q ∧ trimSpace q.1 = q.1 ∧
      trimSpace q.2 = q.2 ∧ kc ∉ q.1 ∧ (kvLine [kc] q).head? ≠ some '#' ∧
      ¬((kvLine [kc] q).head? = some '[' ∧ (kvLine [kc] q).getLast? = some ']')) :
    parseLines false true false [kc] (secLines kc p ++ rest) cursec pre =
      parseLines false true false [kc] rest p.1 (pre ++ [p]) := by
  rw [secLines, List.cons_append, parseLines_secheader kc p.1 _ cursec pre,
    aset_append_fresh p.1 [] pre hfresh,
    parseLines_kvblock kc p.2 rest p.1 pre [] hfresh hp,
    foldl_aset_disjoint p.2 [] (by simp) hnd]
  rfl

theorem parseLines_allblocks (kc : Char) (secsl : List (GoStr × Kvmap)) :
    ∀ (rest : List GoStr) (cursec : GoStr) (pre : SectionMap),
      (∀ p ∈ secsl, p.1 ∉ pre.map Prod.fst) →
      keysNodup secsl →
      (∀ p ∈ secsl, keysNodup p.2) →
      (∀ p ∈ secsl, ∀ q ∈ p.2, trimSpace (kvLine [kc] q) = kvLine [kc] q ∧
        trimSpace q.1 = q.1 ∧ trimSpace q.2 = q.2 ∧ kc ∉ q.1 ∧
        (kvLine [kc] q).head? ≠ some '#' ∧
        ¬((kvLine [kc] q).head? = some '[' ∧ (kvLine [kc] q).getLast? = some ']')) →
      parseLines false true false [kc] (secsl.flatMap (secLines kc) ++ rest) cursec pre =
        parseLines false true false [kc] rest (secsl.foldl (fun _ p => p.1) cursec)
          (pre ++ secsl) := by
  induction secsl with
  | nil =>
    intro rest cursec pre _ _ _ _
    simp
  | cons p ps ih =>
    intro rest cursec pre hfresh hnd hinner hp
    obtain ⟨hndp, hndps⟩ := keysNodup_cons hnd
    rw [List.flatMap_cons, List.append_assoc,
      parseLines_secblock kc p _ cursec pre (hfresh p (List.mem_cons_self ..))
        (hinner p (List.mem_cons_self ..)) (hp p (List.mem_cons_self ..)),
      ih _ p.1 (pre ++ [p]) ?_ hndps (fun r hr => hinner r (List.mem_cons_of_mem _ hr))
        (fun r hr => hp r (List.mem_cons_of_mem _ hr))]
    · rw [List.append_assoc]
      rfl
    · intro r hr
      rw [List.map_append, List.mem_append]
      rintro (h1 | h1)
      · exact hfresh r (List.mem_cons_of_mem _ hr) h1
      · simp only [List.map_cons, List.map_nil, List.mem_singleton] at h1
        exact hndp (h1 ▸ List.mem_map.mpr ⟨r, hr, rfl⟩)

theorem parseINI_err (ini : INI) (data lineSep kvSep : GoStr) :
    (parseINI ini data lineSep kvSep).2 =
      (parseLines ini.skipCommits ini.parseSection ini.trimQuotes kvSep
        (splitOnSep lineSep data) [] (aset [] [] ini.sections)).2.2 := rfl

/-- C6: amended round trip.  For a well-formed store with
single-character distinct separators, a present default section, section
names free of the line separator and of the bracket characters' hazards,
and keys/values that are whitespace-trim-invariant, separator-free and
whose composed lines neither start with hash nor look like a section
header: parsing Write's output into a fresh store with section parsing
enabled succeeds and reproduces the same sections with the same key/value
pairs. -/
theorem C6_roundtrip (S : INI) (lc kc : Char) (dkv : Kvmap)
    (hWF : WFINI S)
    (hl : S.lineSep = [lc]) (hk : S.kvSep = [kc]) (hlk : lc ≠ kc)
    (hlb : lc ≠ '[') (hrb : lc ≠ ']')
    (hdef : alookup DefaultSection S.sections = some dkv)
    (hsecnames : ∀ p ∈ S.sections, lc ∉ p.1)
    (hpairs : ∀ p ∈ S.sections, ∀ q ∈ p.2,
      trimSpace q.1 = q.1 ∧ trimSpace q.2 = q.2 ∧
      trimSpace (kvLine [kc] q) = kvLine [kc] q ∧
      lc ∉ q.1 ∧ lc ∉ q.2 ∧ kc ∉ q.1 ∧ kc ∉ q.2 ∧
      (kvLine [kc] q).head? ≠ some '#' ∧
      ¬((kvLine [kc] q).head? = some '[' ∧ (kvLine [kc] q).getLast? = some ']')) :
    (parseINI { New with parseSection := true } S.Write [lc] [kc]).2 = none ∧
    (∀ s, alookup s ((parseINI { New with parseSection := true }
      S.Write [lc] [kc]).1.sections) = alookup s S.sections) ∧
    (∀ s k, (parseINI { New with parseSection := true } S.Write [lc] [kc]).1.SectionGet s k =
      S.SectionGet s k) := by
  have hdef' : alookup [] S.sections = some dkv := hdef
  have hdkvnd : keysNodup dkv := hWF.2 ([], dkv) (mem_of_alookup_eq_some hdef')
  have hdmem : ([], dkv) ∈ S.sections := mem_of_alookup_eq_some hdef'
  have hFne : ∀ p ∈ S.sections.filter (fun p => !p.1.isEmpty), p.1 ≠ [] := by
    intro p hp'
    have := (List.mem_filter.mp hp').2
    simp at this
    intro he
    rw [he] at this
    exact this rfl
  have hFmem : ∀ p ∈ S.sections.filter (fun p => !p.1.isEmpty), p ∈ S.sections :=
    fun p hp' => (List.mem_filter.mp hp').1
  have hFnd : keysNodup (S.sections.filter (fun p => !p.1.isEmpty)) := by
    have hsub : ((S.sections.filter (fun p => !p.1.isEmpty)).map Prod.fst).Sublist
        (S.sections.map Prod.fst) := (List.filter_sublist _).map Prod.fst
    exact List.Nodup.sublist hsub hWF.1
  have hnolc : ∀ l ∈ writeLines S kc, lc ∉ l := by
    intro l hl'
    rw [writeLines, hdef'] at hl'
    rw [show (some dkv).getD ([] : Kvmap) = dkv from rfl] at hl'
    rcases List.mem_append.mp hl' with h1 | h1
    · rw [List.mem_map] at h1
      obtain ⟨q, hq, rfl⟩ := h1
      have hc := hpairs ([], dkv) hdmem q hq
      rw [kvLine]
      intro hmem
      rcases List.mem_append.mp hmem with h2 | h2
      · rcases List.mem_append.mp h2 with h3 | h3
        · exact hc.2.2.2.1 h3
        · simp at h3
          exact hlk h3
      · exact hc.2.2.2.2.1 h2
    · rw [List.mem_flatMap] at h1
      obtain ⟨p, hp', hline'⟩ := h1
      have hpmem : p ∈ S.sections := hFmem p hp'
      rw [secLines] at hline'
      rcases List.mem_cons.mp hline' with h2 | h2
      · subst h2
        intro hmem
        rcases List.mem_cons.mp hmem with h3 | h3
        · exact hlb h3
        · rcases List.mem_append.mp h3 with h4 | h4
          · exact hsecnames p hpmem h4
          · simp at h4
            exact hrb h4
      · rw [List.mem_map] at h2
        obtain ⟨q, hq, rfl⟩ := h2
        have hc := hpairs p hpmem q hq
        rw [kvLine]
        intro hmem
        rcases List.mem_append.mp hmem with h3 | h3
        · rcases List.mem_append.mp h3 with h4 | h4
          · exact hc.2.2.2.1 h4
          · simp at h4
            exact hlk h4
        · exact hc.2.2.2.2.1 h3
  have hsplit : splitOnSep [lc] S.Write = writeLines S kc ++ [[]] := by
    rw [Write_eq S lc kc hl hk dkv hdef']
    exact splitOnSep_joined lc _ hnolc
  have hrun : parseLines false true false [kc] (writeLines S kc ++ [[]]) [] [([], [])] =
      ((S.sections.filter (fun p => !p.1.isEmpty)).foldl (fun _ p => p.1) [],
        ([], dkv) :: S.sections.filter (fun p => !p.1.isEmpty), none) := by
    rw [writeLines, hdef']
    show parseLines false true false [kc]
        ((dkv.map (fun q => kvLine [kc] q) ++
          (S.sections.filter (fun p => !p.1.isEmpty)).flatMap (secLines kc)) ++ [[]]) []
        ([] ++ [([], [])]) = _
    rw [List.append_assoc]
    rw [parseLines_kvblock kc dkv
      ((S.sections.filter (fun p => !p.1.isEmpty)).flatMap (secLines kc) ++ [[]]) [] [] []
      (by simp)
      (fun q hq => by
        have hc := hpairs ([], dkv) hdmem q hq
        exact ⟨hc.2.2.1, hc.1, hc.2.1, hc.2.2.2.2.2.1, hc.2.2.2.2.2.2.2.1,
          hc.2.2.2.2.2.2.2.2⟩)]
    rw [foldl_aset_disjoint dkv [] (by simp) hdkvnd]
    show parseLines false true false [kc]
        ((S.sections.filter (fun p => !p.1.isEmpty)).flatMap (secLines kc) ++ [[]]) []
        ([([], dkv)]) = _
    rw [parseLines_allblocks kc (S.sections.filter (fun p => !p.1.isEmpty)) [[]] []
      [([], dkv)]
      (fun p hp' => by
        intro hmem
        simp only [List.map_cons, List.map_nil, List.mem_singleton] at hmem
        exact hFne p hp' hmem)
      hFnd
      (fun p hp' => hWF.2 p (hFmem p hp'))
      (fun p hp' q hq => by
        have hc := hpairs p (hFmem p hp') q hq
        exact ⟨hc.2.2.1, hc.1, hc.2.1, hc.2.2.2.2.2.1, hc.2.2.2.2.2.2.2.1,
          hc.2.2.2.2.2.2.2.2⟩)]
    rw [parseLines_blank_nil]
    rfl
  have hsec : (parseINI { New with parseSection := true } S.Write [lc] [kc]).1.sections =
      ([], dkv) :: S.sections.filter (fun p => !p.1.isEmpty) := by
    rw [parseINI_sections]
    show (parseLines false true false [kc] (splitOnSep [lc] S.Write) [] [([], [])]).2.1 = _
    rw [hsplit, hrun]
  have herr : (parseINI { New with parseSection := true } S.Write [lc] [kc]).2 = none := by
    rw [parseINI_err]
    show (parseLines false true false [kc] (splitOnSep [lc] S.Write) [] [([], [])]).2.2 = _
    rw [hsplit, hrun]
  have hlook : ∀ s, alookup s (([], dkv) :: S.sections.filter (fun p => !p.1.isEmpty)) =
      alookup s S.sections := by
    intro s
    by_cases hs : s = []
    · subst hs
      rw [alookup, if_pos rfl, hdef']
    · rw [alookup, if_neg (fun he => hs he.symm), alookup_filter_ne_nil s S.sections hs]
  refine ⟨herr, ?_, ?_⟩
  · intro s
    rw [hsec, hlook s]
  · intro s k
    simp only [INI.SectionGet]
    rw [hsec, hlook s]

/-- C6: witness: a store with a default pair and one section round-trips
through Write and parseINI to the same lookups. -/
theorem C6_roundtrip_witness :
    (parseINI { New with parseSection := true } c6Good.Write ['\n'] ['=']).2 = none ∧
    (parseINI { New with parseSection := true } c6Good.Write ['\n']
      ['=']).1.SectionGet ['s'] ['c'] = c6Good.SectionGet ['s'] ['c'] := by
  have h := C6_roundtrip c6Good '\n' '=' [(['a'], ['1'])] (by decide) rfl rfl (by decide)
    (by decide) (by decide) (by decide) (by decide) (by decide)
  exact ⟨h.1, h.2.2 ['s'] ['c']⟩

/-- C6: counterexample to the claim as stated: the value of key a is the
string space-one, which contains neither the key/value separator nor the
line separator, yet re-parsing Write's output yields the trimmed value
one, so the reproduced store differs. -/
theorem C6_counterexample :
    (∀ p ∈ c6Store.sections, ∀ q ∈ p.2,
      '=' ∉ q.1 ∧ '=' ∉ q.2 ∧ '\n' ∉ q.1 ∧ '\n' ∉ q.2) ∧
    c6Store.lineSep = DefaultLineSeparator ∧ c6Store.kvSep = DefaultKeyValueSeparator ∧
    (parseINI { New with parseSection := true } c6Store.Write c6Store.lineSep
        c6Store.kvSep).1.SectionGet DefaultSection ['a'] ≠
      c6Store.SectionGet DefaultSection ['a'] := by
  refine ⟨by decide, rfl, rfl, by decide⟩

end Goini
